import Mathlib

/-!
Verification of the hybrid retrieval engine of the RAG agent
(`src/services/mastra/database/vectorOperations.ts`, plus the earlier
multilingual variant of the same file).

Strings are modelled as `List Char`; JavaScript floating-point numbers are
modelled as exact rationals `ℚ` (the engine only adds, subtracts, multiplies
by small constants, and compares); the external PostgreSQL store is modelled
by its table contents plus flags saying which of the engine's queries fail;
the SQL queries the engine builds are modelled by executable Lean functions
over that table.  The per-call query embedding only appears in the SQL via
`embedding <-> $1::vector`, so it is abstracted into the per-row `distance`
value stored in the table model.
-/

unseal Rat.add Rat.mul Rat.sub Rat.inv

/-- Decidable equality for `Except`, for evaluating the engine on concrete
inputs. -/
instance {ε α : Type} [DecidableEq ε] [DecidableEq α] :
    DecidableEq (Except ε α) := fun x y =>
  match x, y with
  | .error a, .error b =>
    if h : a = b then isTrue (by rw [h]) else isFalse (by simp [h])
  | .error _, .ok _ => isFalse (by simp)
  | .ok _, .error _ => isFalse (by simp)
  | .ok a, .ok b =>
    if h : a = b then isTrue (by rw [h]) else isFalse (by simp [h])

namespace RagVec

/-- Strings from the source are modelled as lists of characters. -/
abbrev Str := List Char

/-- JavaScript `\w` character class: `[A-Za-z0-9_]`. -/
def isWordChar (c : Char) : Bool := c.isAlphanum || c == '_'

/-- JavaScript `\s` character class (the ASCII part used here). -/
def isJsSpace (c : Char) : Bool :=
  c == ' ' || c == '\t' || c == '\n' || c == '\r' || c == '\x0b' || c == '\x0c'

/-- JavaScript `\d`. -/
def isDigitC (c : Char) : Bool := c.isDigit

/-- JavaScript `[A-Za-z]` (the `[A-Z]` classes of the source all carry the
`i` flag). -/
def isAlphaC (c : Char) : Bool := c.isAlpha

/-- The `[-\/]` class of the identifier patterns. -/
def isSepDS (c : Char) : Bool := c == '-' || c == '/'

/-- The `[-\s]` class of the identifier patterns. -/
def isDashSpace (c : Char) : Bool := c == '-' || isJsSpace c

/-- `String.prototype.toLowerCase` (ASCII). -/
def toLowerStr (s : Str) : Str := s.map Char.toLower

/-- `String.prototype.toUpperCase` (ASCII). -/
def toUpperStr (s : Str) : Str := s.map Char.toUpper

/-- `String.prototype.trim`. -/
def trimStr (s : Str) : Str :=
  ((s.dropWhile isJsSpace).reverse.dropWhile isJsSpace).reverse

/-- Whether an optional character is a word character (used for `\b`). -/
def wordQ : Option Char → Bool
  | some c => isWordChar c
  | none => false

/-- JavaScript word boundary `\b`: the previous and next characters disagree
about being word characters (a missing character counts as non-word). -/
def isBoundary (prev : Option Char) (next : Option Char) : Bool :=
  wordQ prev != wordQ next

/-- The regular-expression fragments used by the five identifier patterns of
`extractQueryIdentifiers`.  Every quantifier in those patterns ranges over a
single character class, so quantified classes are primitives here. -/
inductive RE where
  | cls (p : Char → Bool)
  | opt (p : Char → Bool)
  | plus (p : Char → Bool)
  | star (p : Char → Bool)
  | rep2 (p : Char → Bool)
  | bnd
  | seq (a b : RE)

/-- Consume `k` characters of `s`, returning the new previous-character and
the rest. -/
def consumeK (prev : Option Char) (s : List Char) (k : Nat) :
    Option Char × List Char :=
  if k = 0 then (prev, s) else ((s.take k).getLast?, s.drop k)

/-- All ways a greedy class quantifier with minimum count `minLen` can match
at the current position, longest first (JavaScript backtracking priority). -/
def greedyAlts (p : Char → Bool) (minLen : Nat) (prev : Option Char)
    (s : List Char) : List (Option Char × List Char) :=
  let n := (s.takeWhile p).length
  (((List.range (n + 1)).reverse).filter (fun k => minLen ≤ k)).map
    (consumeK prev s)

/-- All states (previous character, remaining input) reachable by matching
`re` at the current position, in JavaScript backtracking priority order. -/
def mlist : RE → Option Char → List Char → List (Option Char × List Char)
  | .cls p, _, s =>
    match s with
    | [] => []
    | c :: rest => if p c then [(some c, rest)] else []
  | .opt p, prev, s =>
    match s with
    | [] => [(prev, s)]
    | c :: rest => if p c then [(some c, rest), (prev, s)] else [(prev, s)]
  | .plus p, prev, s => greedyAlts p 1 prev s
  | .star p, prev, s => greedyAlts p 0 prev s
  | .rep2 p, prev, s => greedyAlts p 2 prev s
  | .bnd, prev, s => if isBoundary prev s.head? then [(prev, s)] else []
  | .seq a b, prev, s => (mlist a prev s).flatMap (fun pr => mlist b pr.1 pr.2)

/-- Global scan of `re` over the input, as `String.prototype.match` with the
`g` flag: at each position take the highest-priority match if any, record it,
and continue after it; otherwise advance one character.  (Each of the five
identifier patterns consumes at least one character, so the zero-length
guard — JavaScript's `lastIndex` bump — only guards termination here.) -/
def scanAux (re : RE) : Nat → Option Char → List Char → List (List Char)
  | 0, _, _ => []
  | _ + 1, _, [] => []
  | fuel + 1, prev, c :: cs =>
    match (mlist re prev (c :: cs)).head? with
    | some (lastc, rest) =>
      if (c :: cs).length - rest.length = 0 then scanAux re fuel (some c) cs
      else ((c :: cs).take ((c :: cs).length - rest.length)) ::
        scanAux re fuel lastc rest
    | none => scanAux re fuel (some c) cs

/-- `query.match(pattern) || []` for a global pattern. -/
def reMatches (re : RE) (s : Str) : List Str :=
  scanAux re (s.length + 1) none s

/-- `/\b\d+[-\/]\d+\b/gi`. -/
def pat1 : RE :=
  .seq .bnd (.seq (.plus isDigitC)
    (.seq (.cls isSepDS) (.seq (.plus isDigitC) .bnd)))

/-- `/\b[A-Z]{2,}[-\s]?\d+[-\/]?\d*\b/gi`. -/
def pat2 : RE :=
  .seq .bnd (.seq (.rep2 isAlphaC) (.seq (.opt isDashSpace)
    (.seq (.plus isDigitC) (.seq (.opt isSepDS)
      (.seq (.star isDigitC) .bnd)))))

/-- `/\b\d+[-\s]?[A-Z]{2,}\b/gi`. -/
def pat3 : RE :=
  .seq .bnd (.seq (.plus isDigitC)
    (.seq (.opt isDashSpace) (.seq (.rep2 isAlphaC) .bnd)))

/-- `/\b[A-Z]{2,}\d+\b/gi`. -/
def pat4 : RE :=
  .seq .bnd (.seq (.rep2 isAlphaC) (.seq (.plus isDigitC) .bnd))

/-- `/\b\d+[A-Z]{2,}\b/gi`. -/
def pat5 : RE :=
  .seq .bnd (.seq (.plus isDigitC) (.seq (.rep2 isAlphaC) .bnd))

/-- `[...new Set(xs)]`: deduplicate keeping first occurrences. -/
def dedupFirst : List Str → List Str → List Str
  | [], _ => []
  | x :: xs, seen =>
    if seen.contains x then dedupFirst xs seen
    else x :: dedupFirst xs (x :: seen)

/-- JavaScript `query.split(/\s+/)`: pieces between maximal whitespace runs,
including an empty leading/trailing piece when the string starts/ends with
whitespace. -/
def splitWsGo : Nat → List Char → List Str
  | 0, _ => []
  | fuel + 1, s =>
    let tok := s.takeWhile (fun c => !isJsSpace c)
    let rest := s.drop tok.length
    match rest with
    | [] => [tok]
    | _ => tok :: splitWsGo fuel (rest.dropWhile isJsSpace)

/-- `query.split(/\s+/)`. -/
def splitWs (s : Str) : List Str := splitWsGo (s.length + 1) s

/-- `/^\d+$/.test s`. -/
def isPureNumeric (s : Str) : Bool := !s.isEmpty && s.all isDigitC

/-- The keyword loop of `extractQueryIdentifiers`: keep tokens whose cleaned
form has length ≥ 2, is not purely numeric and contains a letter; dedupe
case-insensitively; push the lower-case form and, when it differs and the
token has length ≥ 3, also the original-case form. -/
def kwGo : List Str → List Str → List Str
  | [], _ => []
  | w :: ws, seen =>
    let cleaned := w.filter isWordChar
    let lowerCleaned := toLowerStr cleaned
    if 2 ≤ cleaned.length && !isPureNumeric cleaned && cleaned.any isAlphaC
        && !seen.contains lowerCleaned then
      lowerCleaned ::
        ((if cleaned != lowerCleaned && 3 ≤ cleaned.length then [cleaned]
          else []) ++ kwGo ws (lowerCleaned :: seen))
    else kwGo ws seen

/-- Result of the query analyzer. -/
structure QueryTerms where
  identifiers : List Str
  keywords : List Str
deriving DecidableEq

/-- `extractQueryIdentifiers` (vectorOperations.ts lines 248-301): union the
matches of the five identifier patterns, trim/upper-case and deduplicate
them; extract keywords with the loop above, capped to 15. -/
def extractQueryIdentifiers (query : Str) : QueryTerms :=
  let identifiers :=
    reMatches pat1 query ++ reMatches pat2 query ++ reMatches pat3 query
      ++ reMatches pat4 query ++ reMatches pat5 query
  let uniqueIdentifiers :=
    dedupFirst (identifiers.map (fun a => toUpperStr (trimStr a))) []
  ⟨uniqueIdentifiers, (kwGo (splitWs query) []).take 15⟩

/-- The keyword extraction of `tryKeywordSearch` (lines 181-194): lower-case
the query, split on whitespace, strip punctuation, keep words of length ≥ 3
that are not purely numeric and contain a lower-case letter, capped to 5. -/
def keywordSearchTerms (query : Str) : List Str :=
  ((((splitWs (toLowerStr query)).map (fun w => w.filter isWordChar)).filter
    (fun w => 3 ≤ w.length && !isPureNumeric w && w.any Char.isLower)).take 5)

/-- One stored row of the `rag_documents` table (`title` and `content` are
NOT NULL in the schema).  `distance` is the value the store computes for
`embedding <-> $1::vector` against the current call's query embedding; since
every query of one call uses the same embedding, it is baked in per row. -/
structure DbRow where
  id : Int
  title : Str
  content : Str
  distance : ℚ
deriving DecidableEq

/-- A row as returned by one of the three SELECTs.  `base_similarity` and
`keyword_boost` are only present on hybrid-query rows. -/
structure RRow where
  id : Int
  title : Str
  content : Str
  similarity : ℚ
  base_similarity : Option ℚ
  keyword_boost : Option ℚ
deriving DecidableEq

/-- A single character of an ILIKE pattern matched against a text character:
`_` matches anything, otherwise case-insensitive equality.  (The terms the
engine interpolates into `%term%` never contain `%`.) -/
def likeCharMatch (p c : Char) : Bool := p == '_' || p.toLower == c.toLower

/-- Match an ILIKE pattern fragment against a prefix of the text. -/
def likeMatchesAt : Str → Str → Bool
  | [], _ => true
  | _ :: _, [] => false
  | p :: ps, c :: cs => likeCharMatch p c && likeMatchesAt ps cs

/-- `hay ILIKE '%term%'`. -/
def ilikeContains (hay term : Str) : Bool :=
  (List.range (hay.length + 1)).any (fun i => likeMatchesAt term (hay.drop i))

/-- Insert into a sorted list, before the first element that is not
`le`-smaller: a stable insertion step. -/
def insertLe (le : α → α → Bool) (a : α) : List α → List α
  | [] => [a]
  | b :: l => if le a b then a :: b :: l else b :: insertLe le a l

/-- Stable insertion sort by a boolean total preorder (models `ORDER BY`). -/
def sortLe (le : α → α → Bool) : List α → List α
  | [] => []
  | a :: l => insertLe le a (sortLe le l)

/-- `ORDER BY embedding <-> $1::vector` (ascending distance). -/
def vecLe (a b : DbRow) : Bool := decide (a.distance ≤ b.distance)

/-- Row shape produced by the pure-vector SELECT (lines 72-84). -/
def toVectorRRow (r : DbRow) : RRow :=
  ⟨r.id, r.title, r.content, 1 - r.distance, none, none⟩

/-- The pure-vector SELECT: `WHERE 1 - distance > threshold ORDER BY
distance LIMIT lim`. -/
def vectorSqlRows (table : List DbRow) (threshold : ℚ) (lim : Nat) :
    List RRow :=
  ((sortLe vecLe (table.filter
    (fun r => decide (1 - r.distance > threshold)))).take lim).map
    toVectorRRow

/-- Whether any search term matches title or content (the keyword side of
the hybrid WHERE clause, and the whole keyword-search WHERE clause). -/
def lexMatch (terms : List Str) (r : DbRow) : Bool :=
  terms.any (fun t => ilikeContains r.title t || ilikeContains r.content t)

/-- `Σ CASE WHEN title ILIKE $i THEN 0.5 ELSE 0 END` over all terms. -/
def titleBoost (terms : List Str) (r : DbRow) : ℚ :=
  ((terms.map (fun t => if ilikeContains r.title t then (1 : ℚ)/2 else 0)).sum)

/-- `Σ CASE WHEN content ILIKE $i THEN 0.3 ELSE 0 END` over all terms. -/
def contentBoost (terms : List Str) (r : DbRow) : ℚ :=
  ((terms.map (fun t => if ilikeContains r.content t then (3 : ℚ)/10 else 0)).sum)

/-- The `keyword_priority` column: 1 = title match, 2 = content match,
3 = vector only. -/
def keywordPriorityTier (terms : List Str) (r : DbRow) : Nat :=
  if 0 < titleBoost terms r then 1
  else if 0 < contentBoost terms r then 2
  else 3

/-- The `similarity` column of the hybrid SELECT:
`LEAST(1.0, base + title_boost + content_boost)`. -/
def hybridSimilarity (terms : List Str) (r : DbRow) : ℚ :=
  min 1 ((1 - r.distance) + titleBoost terms r + contentBoost terms r)

/-- Row shape produced by the hybrid SELECT (lines 341-364). -/
def toHybridRRow (terms : List Str) (r : DbRow) : RRow :=
  ⟨r.id, r.title, r.content, hybridSimilarity terms r,
    some (1 - r.distance), some (titleBoost terms r + contentBoost terms r)⟩

/-- The hybrid WHERE clause:
`1 - distance > $hybridThreshold OR (term match on title or content)`. -/
def hybridQualifies (terms : List Str) (ht : ℚ) (r : DbRow) : Bool :=
  decide (1 - r.distance > ht) || lexMatch terms r

/-- `ORDER BY keyword_priority ASC, similarity DESC, distance ASC`. -/
def hybridLe (terms : List Str) (a b : DbRow) : Bool :=
  decide (keywordPriorityTier terms a < keywordPriorityTier terms b) ||
    (keywordPriorityTier terms a == keywordPriorityTier terms b &&
      (decide (hybridSimilarity terms b < hybridSimilarity terms a) ||
        (hybridSimilarity terms a == hybridSimilarity terms b &&
          decide (a.distance ≤ b.distance))))

/-- The hybrid SELECT over the table. -/
def hybridSqlRows (table : List DbRow) (terms : List Str) (ht : ℚ)
    (lim : Nat) : List RRow :=
  ((sortLe (hybridLe terms)
    (table.filter (hybridQualifies terms ht))).take lim).map
    (toHybridRRow terms)

/-- `CASE WHEN title ILIKE $1 THEN 1 ... ELSE n+1 END` of the keyword
SELECT's ORDER BY. -/
def titleRank (kws : List Str) (r : DbRow) : Nat :=
  match kws.findIdx? (fun k => ilikeContains r.title k) with
  | some i => i + 1
  | none => kws.length + 1

/-- `ORDER BY title-rank ASC, id DESC` of the keyword SELECT. -/
def kwLe (kws : List Str) (a b : DbRow) : Bool :=
  decide (titleRank kws a < titleRank kws b) ||
    (titleRank kws a == titleRank kws b && decide (b.id ≤ a.id))

/-- The keyword SELECT (lines 209-226): any-term ILIKE filter, ordered by
title-match rank then descending id, fixed similarity 0.5. -/
def keywordSqlRows (table : List DbRow) (kws : List Str) (lim : Nat) :
    List RRow :=
  ((sortLe (kwLe kws) (table.filter (lexMatch kws))).take lim).map
    (fun r => ⟨r.id, r.title, r.content, 1/2, none, none⟩)

/-- The three parameterized queries the engine sends to the store. -/
inductive StoreOp where
  | hybridQ (terms : List Str) (hybridThreshold : ℚ) (lim : Nat)
  | vectorQ (threshold : ℚ) (lim : Nat)
  | keywordQ (kws : List Str) (lim : Nat)
deriving DecidableEq

/-- The external PostgreSQL collaborator: its table contents, plus which of
the engine's queries fail (this is environment, not code — it lets the
error-handling claims quantify over store failures). -/
structure Store where
  table : List DbRow
  hybridFails : Bool
  keywordFails : Bool
  vectorFails : ℚ → Bool

/-- Executing one store query: `none` models a thrown store error,
otherwise the rows follow the SQL semantics above. -/
def Store.exec (st : Store) : StoreOp → Option (List RRow)
  | .hybridQ terms ht lim =>
    if st.hybridFails then none else some (hybridSqlRows st.table terms ht lim)
  | .vectorQ t lim =>
    if st.vectorFails t then none else some (vectorSqlRows st.table t lim)
  | .keywordQ kws lim =>
    if st.keywordFails then none else some (keywordSqlRows st.table kws lim)

/-- `SERVICE_CONSTANTS.DEFAULT_LIMIT`. -/
def DEFAULT_LIMIT : Nat := 5

/-- `SERVICE_CONSTANTS.DEFAULT_THRESHOLD`. -/
def DEFAULT_THRESHOLD : ℚ := 3/10

/-- `QueryOptions`: limit and threshold are optional. -/
structure QueryOptions where
  limit : Option Nat
  threshold : Option ℚ
deriving DecidableEq

/-- `VectorSearchError` as thrown by the outer catch of `vectorSearch`
(lines 493-498): it carries the original query and the requested (possibly
absent) limit and threshold. -/
structure VectorSearchError where
  query : Str
  limit : Option Nat
  threshold : Option ℚ
deriving DecidableEq

/-- `VectorSearchDocument`: the normalized result shape.  The opaque
`metadata` JSON column is carried by the code unchanged and is not
modelled. -/
structure VDoc where
  id : Int
  title : Str
  content : Str
  similarity : ℚ
deriving DecidableEq

/-- `mapRowsToDocuments` (lines 107-131): default the title when it is
null/empty, cap similarity at 1.0. -/
def mapRowsToDocuments (rows : List RRow) : List VDoc :=
  rows.map (fun r =>
    ⟨r.id, if r.title.isEmpty then "Untitled Document".data else r.title,
      r.content, min 1 r.similarity⟩)

/-- `executeVectorSearch` (lines 67-101): one pure-vector store query,
paired with the trace of issued store operations. -/
def executeVectorSearch (st : Store) (t : ℚ) (lim : Nat) :
    Except Unit (List RRow) × List StoreOp :=
  match st.exec (.vectorQ t lim) with
  | none => (.error (), [.vectorQ t lim])
  | some rows => (.ok rows, [.vectorQ t lim])

/-- The fallback threshold ladder of `trySearchWithFallbackThresholds`
(lines 143-150): clamped 70% and 50% of the original, then fixed floors,
keeping only entries strictly below the original. -/
def fallbackThresholds (t : ℚ) : List ℚ :=
  ([max (1/10) (t * (7/10)), max (1/20) (t * (1/2)), 1/10, 1/20, 1/100,
    0]).filter (fun x => decide (x < t))

/-- The loop of `trySearchWithFallbackThresholds` (lines 152-165): run the
pure-vector query at each threshold in order, stopping at the first that
returns at least one row; `none` if all are empty.  Store errors propagate
(there is no catch in this function). -/
def fallbackLoop (st : Store) (lim : Nat) :
    List ℚ → Except Unit (Option (List RRow)) × List StoreOp
  | [] => (.ok none, [])
  | t :: ts =>
    match executeVectorSearch st t lim with
    | (.error e, tr) => (.error e, tr)
    | (.ok rows, tr) =>
      if rows.isEmpty then
        let res := fallbackLoop st lim ts
        (res.1, tr ++ res.2)
      else (.ok (some rows), tr)

/-- `trySearchWithFallbackThresholds` (lines 137-168). -/
def trySearchWithFallbackThresholds (st : Store) (t : ℚ) (lim : Nat) :
    Except Unit (Option (List RRow)) × List StoreOp :=
  fallbackLoop st lim (fallbackThresholds t)

/-- `tryKeywordSearch` (lines 174-242): no store query if no keywords
survive; a store error is caught and absorbed into `none`; an empty result
is also `none`. -/
def tryKeywordSearch (st : Store) (query : Str) (lim : Nat) :
    Option (List RRow) × List StoreOp :=
  let kws := keywordSearchTerms query
  if kws.isEmpty then (none, [])
  else
    match st.exec (.keywordQ kws lim) with
    | none => (none, [.keywordQ kws lim])
    | some rows =>
      (if rows.length > 0 then some rows else none, [.keywordQ kws lim])

/-- `Math.max(0, threshold - 0.5)` (line 368). -/
def hybridThreshold (t : ℚ) : ℚ := max 0 (t - 1/2)

/-- The search terms of the hybrid query (line 317): identifiers first,
then up to 10 keywords. -/
def hybridSearchTerms (query : Str) : List Str :=
  (extractQueryIdentifiers query).identifiers ++
    (extractQueryIdentifiers query).keywords.take 10

/-- `hybridVectorSearch` (lines 307-392): with no search terms it executes
exactly the pure-vector query at the caller's threshold; otherwise the
hybrid query at `max(0, threshold - 0.5)`. -/
def hybridVectorSearch (st : Store) (query : Str) (t : ℚ) (lim : Nat) :
    Except Unit (List RRow) × List StoreOp :=
  let terms := hybridSearchTerms query
  if terms.isEmpty then executeVectorSearch st t lim
  else
    match st.exec (.hybridQ terms (hybridThreshold t) lim) with
    | none => (.error (), [.hybridQ terms (hybridThreshold t) lim])
    | some rows => (.ok rows, [.hybridQ terms (hybridThreshold t) lim])

/-- The post-filter of `vectorSearch` (lines 419-437), applied to the raw
hybrid rows. -/
def passesPostFilter (t : ℚ) (r : RRow) : Bool :=
  let sim := r.similarity
  let boost := r.keyword_boost.getD 0
  let baseSim := r.base_similarity.getD 0
  if boost > 3/10 then decide (sim ≥ 1/2) || decide (baseSim ≥ 1/5)
  else if boost > 3/20 then decide (sim ≥ max (t - 1/5) (2/5))
  else decide (sim ≥ t)

/-- The keyword-priority step of `vectorSearch` (lines 449-459): only run
`tryKeywordSearch` when the analyzer finds identifiers or keywords. -/
def keywordStep (st : Store) (query : Str) (lim : Nat) :
    Option (List RRow) × List StoreOp :=
  let qt := extractQueryIdentifiers query
  if !qt.identifiers.isEmpty || !qt.keywords.isEmpty then
    tryKeywordSearch st query lim
  else (none, [])

/-- The cascade of `vectorSearch` (lines 398-499), producing the row list
that is finally passed to `mapRowsToDocuments`.  Branches, in source order:
hybrid pass; if it returned raw rows, post-filter them and return the
filtered rows when nonempty — when the filter removes every row the code
logs that it is falling back but, since `result.rows.length > 0`, all the
later `=== 0` guards fail and the raw rows are returned unfiltered; if the
hybrid pass returned zero rows: keyword-priority step, then pure vector at
the original threshold, then the fallback threshold ladder. -/
def searchRows (st : Store) (query : Str) (t : ℚ) (lim : Nat) :
    Except Unit (List RRow) × List StoreOp :=
  match hybridVectorSearch st query t lim with
  | (.error e, tr) => (.error e, tr)
  | (.ok hrows, tr1) =>
    if hrows.isEmpty then
      match keywordStep st query lim with
      | (some krows, tr2) => (.ok krows, tr1 ++ tr2)
      | (none, tr2) =>
        match executeVectorSearch st t lim with
        | (.error e, tr3) => (.error e, tr1 ++ tr2 ++ tr3)
        | (.ok vrows, tr3) =>
          if vrows.isEmpty then
            match trySearchWithFallbackThresholds st t lim with
            | (.error e, tr4) => (.error e, tr1 ++ tr2 ++ tr3 ++ tr4)
            | (.ok fres, tr4) =>
              (.ok (fres.getD []), tr1 ++ tr2 ++ tr3 ++ tr4)
          else (.ok vrows, tr1 ++ tr2 ++ tr3)
    else
      let filtered := hrows.filter (passesPostFilter t)
      if filtered.isEmpty then (.ok hrows, tr1)
      else (.ok filtered, tr1)

/-- The exposed `vectorSearch` operation: defaults, the cascade, the result
mapper, and the outer catch that wraps any error into a
`VectorSearchError` carrying the query, limit and threshold. -/
def vectorSearch (st : Store) (query : Str) (opts : QueryOptions) :
    Except VectorSearchError (List VDoc) × List StoreOp :=
  let lim := opts.limit.getD DEFAULT_LIMIT
  let t := opts.threshold.getD DEFAULT_THRESHOLD
  match searchRows st query t lim with
  | (.error _, tr) => (.error ⟨query, opts.limit, opts.threshold⟩, tr)
  | (.ok rows, tr) => (.ok (mapRowsToDocuments rows), tr)

/-- The external embedding provider: `none` models a provider error, `some`
the returned embedding values. -/
structure EmbedProvider where
  embed : Str → Option (List ℚ)

/-- The `VectorSearchError` thrown by `generateQueryEmbedding` (lines
55-58): its context carries `query.substring(0, 100)` and the query's
length. -/
structure EmbeddingError where
  queryFragment : Str
  queryLength : Nat
deriving DecidableEq

/-- `generateQueryEmbedding` (lines 29-60): truncate the query to 8000
characters, submit it once, and fail (carrying the query fragment and
length) when the provider errors or returns zero values.  The second
component is the list of texts submitted to the provider. -/
def generateQueryEmbedding (p : EmbedProvider) (query : Str) :
    Except EmbeddingError (List ℚ) × List Str :=
  let truncatedQuery := if query.length > 8000 then query.take 8000 else query
  match p.embed truncatedQuery with
  | none => (.error ⟨query.take 100, query.length⟩, [truncatedQuery])
  | some values =>
    if values.length = 0 then
      (.error ⟨query.take 100, query.length⟩, [truncatedQuery])
    else (.ok values, [truncatedQuery])

namespace Multilingual

/-!
Model of the earlier multilingual variant of `vectorSearch`
(`src/unnamed/part_006`): initial pure-vector pass, a shorter fallback
threshold ladder, then a translate-to-Indonesian retry at threshold 0.
Distances depend on which text was embedded, so the table is indexed by the
embedded text; `embedFails q` models `generateQueryEmbedding` throwing for
`q`; `translationResult q = none` models the translation model call
throwing.  The store queries of this variant are modelled as always
succeeding (store-error propagation is covered by the main model).
-/

/-- Environment of the multilingual engine. -/
structure MLEnv where
  table : Str → List DbRow
  embedFails : Str → Bool
  translationResult : Str → Option Str

/-- `translateQueryToIndonesian` (part_006 lines 56-75): the catch inside
this helper returns the original query when the translation call fails. -/
def translateQueryToIndonesian (env : MLEnv) (query : Str) : Str :=
  match env.translationResult query with
  | some translated => translated
  | none => query

/-- The fallback ladder of this variant (part_006 lines 138-143). -/
def fallbackThresholdsML (t : ℚ) : List ℚ :=
  ([max (1/20) (t * (1/2)), 1/20, 1/100, 0]).filter (fun x => decide (x < t))

/-- The loop of `trySearchWithFallbackThresholds` (part_006 lines 145-157):
first nonempty result, else `none`. -/
def firstHit (tbl : List DbRow) (lim : Nat) : List ℚ → Option (List RRow)
  | [] => none
  | t :: ts =>
    let rows := vectorSqlRows tbl t lim
    if rows.isEmpty then firstHit tbl lim ts else some rows

/-- `mapRowsToDocuments` of this variant (part_006 lines 111-127): no
similarity cap. -/
def mapRowsToDocumentsML (rows : List RRow) : List VDoc :=
  rows.map (fun r =>
    ⟨r.id, if r.title.isEmpty then "Untitled Document".data else r.title,
      r.content, r.similarity⟩)

/-- `vectorSearch` of the multilingual variant (part_006 lines 164-215):
initial pass at the caller's threshold, then the fallback ladder, then the
translation retry at threshold 0; the try/catch around the retry absorbs
any failure there, leaving the previously-empty result in place. -/
def vectorSearchML (env : MLEnv) (query : Str) (opts : QueryOptions) :
    Except VectorSearchError (List VDoc) :=
  let lim := opts.limit.getD DEFAULT_LIMIT
  let t := opts.threshold.getD DEFAULT_THRESHOLD
  if env.embedFails query then .error ⟨query, opts.limit, opts.threshold⟩
  else
    let tbl := env.table query
    let r1 := vectorSqlRows tbl t lim
    if !r1.isEmpty then .ok (mapRowsToDocumentsML r1)
    else
      match firstHit tbl lim (fallbackThresholdsML t) with
      | some rows => .ok (mapRowsToDocumentsML rows)
      | none =>
        let translatedQuery := translateQueryToIndonesian env query
        if env.embedFails translatedQuery then .ok (mapRowsToDocumentsML r1)
        else .ok (mapRowsToDocumentsML
          (vectorSqlRows (env.table translatedQuery) 0 lim))

end Multilingual

/-! Helper lemmas about the sorted SQL row sets and the cascade steps. -/

theorem mem_insertLe {le : α → α → Bool} {a x : α} {l : List α} :
    x ∈ insertLe le a l ↔ x = a ∨ x ∈ l := by
  induction l with
  | nil => simp [insertLe]
  | cons b l ih =>
    simp only [insertLe]
    split
    · simp
    · simp [ih]
      tauto

theorem mem_sortLe {le : α → α → Bool} {x : α} {l : List α} :
    x ∈ sortLe le l ↔ x ∈ l := by
  induction l with
  | nil => simp [sortLe]
  | cons b l ih => simp [sortLe, mem_insertLe, ih]

theorem length_insertLe {le : α → α → Bool} (a : α) (l : List α) :
    (insertLe le a l).length = l.length + 1 := by
  induction l with
  | nil => simp [insertLe]
  | cons b l ih =>
    simp only [insertLe]
    split
    · simp
    · simp [ih]

theorem length_sortLe {le : α → α → Bool} (l : List α) :
    (sortLe le l).length = l.length := by
  induction l with
  | nil => simp [sortLe]
  | cons b l ih => simp [sortLe, length_insertLe, ih]

theorem mem_vectorSqlRows {tbl : List DbRow} {t : ℚ} {lim : Nat} {y : RRow}
    (h : y ∈ vectorSqlRows tbl t lim) :
    ∃ r ∈ tbl, y = toVectorRRow r ∧ 1 - r.distance > t := by
  simp only [vectorSqlRows, List.mem_map] at h
  obtain ⟨r, hr, hy⟩ := h
  have hr2 := List.mem_of_mem_take hr
  rw [mem_sortLe, List.mem_filter] at hr2
  exact ⟨r, hr2.1, hy.symm, by simpa using hr2.2⟩

theorem vectorSqlRows_sim {tbl : List DbRow} {t : ℚ} {lim : Nat} {y : RRow}
    (h : y ∈ vectorSqlRows tbl t lim) : t < y.similarity := by
  obtain ⟨r, _, hy, hgt⟩ := mem_vectorSqlRows h
  rw [hy]
  exact hgt

theorem keywordSqlRows_sim {tbl : List DbRow} {kws : List Str} {lim : Nat}
    {y : RRow} (h : y ∈ keywordSqlRows tbl kws lim) : y.similarity = 1/2 := by
  simp only [keywordSqlRows, List.mem_map] at h
  obtain ⟨r, _, hy⟩ := h
  rw [← hy]

theorem mem_hybridSqlRows {tbl : List DbRow} {terms : List Str} {ht : ℚ}
    {lim : Nat} {y : RRow} (h : y ∈ hybridSqlRows tbl terms ht lim) :
    ∃ r ∈ tbl, y = toHybridRRow terms r ∧ hybridQualifies terms ht r = true := by
  simp only [hybridSqlRows, List.mem_map] at h
  obtain ⟨r, hr, hy⟩ := h
  have hr2 := List.mem_of_mem_take hr
  rw [mem_sortLe, List.mem_filter] at hr2
  exact ⟨r, hr2.1, hy.symm, hr2.2⟩

theorem hybridSqlRows_mem_of {tbl : List DbRow} {terms : List Str} {ht : ℚ}
    {lim : Nat} {r : DbRow} (hr : r ∈ tbl) (hlim : tbl.length ≤ lim)
    (hq : hybridQualifies terms ht r = true) :
    toHybridRRow terms r ∈ hybridSqlRows tbl terms ht lim := by
  have hmem : r ∈ sortLe (hybridLe terms) (tbl.filter (hybridQualifies terms ht)) := by
    rw [mem_sortLe, List.mem_filter]
    exact ⟨hr, hq⟩
  have hlen : (sortLe (hybridLe terms)
      (tbl.filter (hybridQualifies terms ht))).length ≤ lim :=
    le_trans (by rw [length_sortLe]; exact le_trans (List.length_filter_le _ _) le_rfl) hlim
  rw [hybridSqlRows, List.take_of_length_le hlen]
  exact List.mem_map_of_mem _ hmem

theorem titleBoost_nonneg (terms : List Str) (r : DbRow) :
    0 ≤ titleBoost terms r := by
  apply List.sum_nonneg
  intro x hx
  simp only [List.mem_map] at hx
  obtain ⟨t, _, hxe⟩ := hx
  rw [← hxe]
  split <;> norm_num

theorem contentBoost_nonneg (terms : List Str) (r : DbRow) :
    0 ≤ contentBoost terms r := by
  apply List.sum_nonneg
  intro x hx
  simp only [List.mem_map] at hx
  obtain ⟨t, _, hxe⟩ := hx
  rw [← hxe]
  split <;> norm_num

theorem fallbackThresholds_nonneg {t : ℚ} {x : ℚ}
    (hx : x ∈ fallbackThresholds t) : 0 ≤ x := by
  simp only [fallbackThresholds, List.mem_filter] at hx
  have hm := hx.1
  simp only [List.mem_cons, List.not_mem_nil, or_false] at hm
  rcases hm with h | h | h | h | h | h <;> rw [h] <;>
    first
      | exact le_trans (by norm_num) (le_max_left _ _)
      | norm_num

theorem mapRowsToDocuments_sim_le_one {rows : List RRow} {d : VDoc}
    (h : d ∈ mapRowsToDocuments rows) : d.similarity ≤ 1 := by
  simp only [mapRowsToDocuments, List.mem_map] at h
  obtain ⟨r, _, hd⟩ := h
  rw [← hd]
  exact min_le_left _ _

theorem mapRowsToDocuments_sim_nonneg {rows : List RRow} {d : VDoc}
    (hpos : ∀ r ∈ rows, 0 ≤ r.similarity) (h : d ∈ mapRowsToDocuments rows) :
    0 ≤ d.similarity := by
  simp only [mapRowsToDocuments, List.mem_map] at h
  obtain ⟨r, hr, hd⟩ := h
  rw [← hd]
  exact le_min (by norm_num) (hpos r hr)

theorem executeVectorSearch_ok {st : Store} {t : ℚ} {lim : Nat}
    {rows : List RRow} {tr : List StoreOp}
    (h : executeVectorSearch st t lim = (.ok rows, tr)) :
    rows = vectorSqlRows st.table t lim ∧ tr = [.vectorQ t lim] ∧
      st.vectorFails t = false := by
  rw [executeVectorSearch] at h
  rcases hf : st.vectorFails t with _ | _ <;> simp [Store.exec, hf] at h
  · exact ⟨h.1.symm, h.2.symm, rfl⟩

theorem executeVectorSearch_trace (st : Store) (t : ℚ) (lim : Nat) :
    (executeVectorSearch st t lim).2 = [.vectorQ t lim] := by
  rw [executeVectorSearch]
  rcases hf : st.vectorFails t with _ | _ <;> simp [Store.exec, hf]

theorem tryKeywordSearch_some {st : Store} {q : Str} {lim : Nat}
    {krows : List RRow} {tr : List StoreOp}
    (h : tryKeywordSearch st q lim = (some krows, tr)) :
    krows = keywordSqlRows st.table (keywordSearchTerms q) lim ∧
      tr = [.keywordQ (keywordSearchTerms q) lim] ∧
      st.keywordFails = false ∧ krows ≠ [] := by
  rw [tryKeywordSearch] at h
  split at h
  · simp at h
  · rcases hf : st.keywordFails with _ | _ <;> simp [Store.exec, hf] at h
    · obtain ⟨⟨hlen, hrows⟩, htr⟩ := h
      refine ⟨hrows.symm, htr.symm, rfl, ?_⟩
      rw [← hrows]
      intro hc
      rw [hc] at hlen
      simp at hlen

theorem keywordStep_some {st : Store} {q : Str} {lim : Nat}
    {krows : List RRow} {tr : List StoreOp}
    (h : keywordStep st q lim = (some krows, tr)) :
    tryKeywordSearch st q lim = (some krows, tr) := by
  rw [keywordStep] at h
  split at h
  · exact h
  · simp at h

theorem hybridVectorSearch_ok {st : Store} {q : Str} {t : ℚ} {lim : Nat}
    {rows : List RRow} {tr : List StoreOp}
    (h : hybridVectorSearch st q t lim = (.ok rows, tr)) :
    (hybridSearchTerms q = [] ∧ rows = vectorSqlRows st.table t lim) ∨
      (hybridSearchTerms q ≠ [] ∧
        rows = hybridSqlRows st.table (hybridSearchTerms q)
          (hybridThreshold t) lim) := by
  rw [hybridVectorSearch] at h
  split at h
  · next he =>
    left
    refine ⟨by simpa using he, (executeVectorSearch_ok h).1⟩
  · next he =>
    right
    refine ⟨by simpa using he, ?_⟩
    rcases hf : st.hybridFails with _ | _ <;> simp [Store.exec, hf] at h
    · exact h.1.symm

theorem firstHit_none {tbl : List DbRow} {lim : Nat} {ts : List ℚ}
    (h : ∀ x ∈ ts, vectorSqlRows tbl x lim = []) :
    Multilingual.firstHit tbl lim ts = none := by
  induction ts with
  | nil => rfl
  | cons t ts ih =>
    rw [Multilingual.firstHit]
    simp only [h t (by simp), List.isEmpty_nil, if_true]
    exact ih (fun x hx => h x (by simp [hx]))

theorem vectorSqlRows_empty_mono {tbl : List DbRow} {t1 t2 : ℚ} {lim : Nat}
    (h : vectorSqlRows tbl t1 lim = []) (hle : t1 ≤ t2) :
    vectorSqlRows tbl t2 lim = [] := by
  have hlen : (vectorSqlRows tbl t1 lim).length = 0 := by rw [h]; rfl
  simp only [vectorSqlRows, List.length_map, List.length_take, length_sortLe,
    Nat.min_eq_zero_iff, List.length_eq_zero] at hlen
  rcases hlen with hlim | hfil
  · simp [vectorSqlRows, hlim]
  · have hall : ∀ r ∈ tbl, ¬(1 - r.distance > t1) := by
      intro r hr hgt
      have : r ∈ tbl.filter (fun r => decide (1 - r.distance > t1)) := by
        rw [List.mem_filter]
        exact ⟨hr, by simpa using hgt⟩
      rw [hfil] at this
      simp at this
    have hfil2 : tbl.filter (fun r => decide (1 - r.distance > t2)) = [] := by
      rw [List.filter_eq_nil_iff]
      intro r hr
      simp only [decide_eq_true_eq]
      intro hgt
      exact hall r hr (lt_of_le_of_lt hle hgt)
    simp [vectorSqlRows, hfil2, sortLe]

/-- Modelled from the spec for comparison (section 4.3): "A row qualifies if
`base_similarity > (threshold − 0.5)` ... OR any lexical condition matches" —
without the clamp at 0 that the code applies. -/
def specHybridQualifies (terms : List Str) (t : ℚ) (r : DbRow) : Bool :=
  decide (1 - r.distance > t - 1/2) || lexMatch terms r

/-- Modelled from the spec for comparison (section 4.4 state 4): the claimed
retry ladder `0.7×original, 0.5×original, 0.1, 0.05, 0.01, 0`, without the
clamps and without removing entries at or above the original. -/
def specFallbackThresholds (t : ℚ) : List ℚ :=
  [t * (7/10), t * (1/2), 1/10, 1/20, 1/100, 0]

/-- Join a list of tokens with single spaces. -/
def joinSp : List Str → Str
  | [] => []
  | [w] => w
  | w :: ws => w ++ ' ' :: joinSp ws

/-- The canonicalized output of the query analyzer: identifiers then
keywords, in output order, joined by single spaces. -/
def analyzerOutput (q : Str) : Str :=
  joinSp ((extractQueryIdentifiers q).identifiers ++
    (extractQueryIdentifiers q).keywords)

/-- C1.  On a store holding one document at base similarity 1/2 with no
lexical overlap with the query "hello", at caller threshold 4/5 the hybrid
pass returns that one raw row, the row fails every branch of the
post-filter, and `vectorSearch` nevertheless returns it: when no row
survives the post-filter the code logs that it is falling back but the
later cascade guards (`result.rows.length === 0`) are all false, so the raw
hybrid rows are returned unfiltered. -/
theorem vectorSearch_returns_unfiltered_hybrid_rows :
    (vectorSearch ⟨[⟨1, "doc".data, "stuff".data, 1/2⟩], false, false,
        fun _ => false⟩ "hello".data ⟨some 5, some (4/5)⟩).1
      = .ok [⟨1, "doc".data, "stuff".data, 1/2⟩] ∧
    (hybridVectorSearch ⟨[⟨1, "doc".data, "stuff".data, 1/2⟩], false, false,
        fun _ => false⟩ "hello".data (4/5) 5).1
      = .ok [⟨1, "doc".data, "stuff".data, 1/2, some (1/2), some 0⟩] ∧
    passesPostFilter (4/5)
        ⟨1, "doc".data, "stuff".data, 1/2, some (1/2), some 0⟩ = false := by
  decide

/-- C2, counterexample.  A store row with distance 1.6 (base similarity
−0.6) whose content matches the query keyword "julio" qualifies for the
hybrid pass, gets boost 0.3 and combined similarity −0.3, fails the
post-filter, and is returned unfiltered: `search` returns a result with
negative similarity. -/
theorem vectorSearch_similarity_neg_example :
    (vectorSearch ⟨[⟨1, "notes".data, "about julio".data, 16/10⟩], false,
        false, fun _ => false⟩ "julio".data ⟨some 5, some (3/10)⟩).1
      = .ok [⟨1, "notes".data, "about julio".data, -(3/10)⟩] ∧
    (-(3/10) : ℚ) < 0 := by
  decide

/-- C3, counterexample.  With a store whose keyword query fails
(`keywordFails = true`), the query "hello" at threshold 4/5 sends the
keyword query (it appears in the trace), the failure is absorbed, the
cascade continues through the pure-vector pass and the threshold ladder,
and the call returns a result instead of throwing. -/
theorem keyword_failure_absorbed_example :
    (vectorSearch ⟨[⟨1, "alpha".data, "beta".data, 3/4⟩], false, true,
        fun _ => false⟩ "hello".data ⟨some 5, some (4/5)⟩).1
      = .ok [⟨1, "alpha".data, "beta".data, 1/4⟩] ∧
    (vectorSearch ⟨[⟨1, "alpha".data, "beta".data, 3/4⟩], false, true,
        fun _ => false⟩ "hello".data ⟨some 5, some (4/5)⟩).2
      = [.hybridQ ["hello".data] (3/10) 5, .keywordQ ["hello".data] 5,
         .vectorQ (4/5) 5, .vectorQ (14/25) 5, .vectorQ (2/5) 5,
         .vectorQ (1/10) 5] := by
  decide

/-- C4, counterexample.  At caller threshold 0.3 a row with base similarity
−1/20 and no lexical match satisfies the claimed gate
`base_similarity > threshold − 0.5` (−1/20 > −1/5), yet the hybrid pass
retrieves nothing, because the code clamps the gate to
`max(0, threshold − 0.5) = 0`. -/
theorem hybrid_gate_clamped_example :
    specHybridQualifies ["xyz".data] (3/10)
        ⟨1, "alpha".data, "beta".data, 21/20⟩ = true ∧
    hybridSearchTerms "xyz".data = ["xyz".data] ∧
    (hybridVectorSearch ⟨[⟨1, "alpha".data, "beta".data, 21/20⟩], false,
        false, fun _ => false⟩ "xyz".data (3/10) 5).1 = .ok [] := by
  decide

/-- C5, counterexample.  At original threshold 0.05 the claimed retry
ladder starts at `0.7×0.05 = 7/200`, but the code's ladder is clamped and
filtered down to `[1/100, 0]`: the trace shows the cascade never issues a
query at 7/200. -/
theorem cascade_sequence_clamped_example :
    (vectorSearch ⟨[⟨1, "alpha".data, "beta".data, 3/2⟩], false, false,
        fun _ => false⟩ "xyz".data ⟨some 5, some (1/20)⟩).2
      = [.hybridQ ["xyz".data] 0 5, .keywordQ ["xyz".data] 5,
         .vectorQ (1/20) 5, .vectorQ (1/100) 5, .vectorQ 0 5] ∧
    specFallbackThresholds (1/20) = [7/200, 1/40, 1/10, 1/20, 1/100, 0] ∧
    fallbackThresholds (1/20) = [1/100, 0] ∧
    StoreOp.vectorQ (7/200) 5 ∉
      (vectorSearch ⟨[⟨1, "alpha".data, "beta".data, 3/2⟩], false, false,
        fun _ => false⟩ "xyz".data ⟨some 5, some (1/20)⟩).2 := by
  decide

/-- C7, counterexample.  On the query "Julio" the analyzer returns the
keywords `["julio", "Julio"]`; re-running it on its own output
"julio Julio" deduplicates case-insensitively and returns only
`["julio"]`, so the keyword set is not preserved. -/
theorem analyzer_not_idempotent_example :
    "Julio".data ∈ (extractQueryIdentifiers "Julio".data).keywords ∧
    "Julio".data ∉
      (extractQueryIdentifiers (analyzerOutput "Julio".data)).keywords := by
  decide

/-- C8.  `generateQueryEmbedding` submits exactly one text to the provider,
that text never exceeds 8000 characters (so over-long input is truncated,
never an error); and the result is an error exactly when the provider
errors or returns zero values, in which case the error carries the first
100 characters of the query and the query's length. -/
theorem generateQueryEmbedding_contract (p : EmbedProvider) (query : Str) :
    (∀ s ∈ (generateQueryEmbedding p query).2, s.length ≤ 8000) ∧
    (generateQueryEmbedding p query).2.length = 1 ∧
    (∀ e, (generateQueryEmbedding p query).1 = .error e →
      e = ⟨query.take 100, query.length⟩ ∧
        (p.embed (if query.length > 8000 then query.take 8000 else query)
            = none ∨
         p.embed (if query.length > 8000 then query.take 8000 else query)
            = some [])) ∧
    (∀ values,
      p.embed (if query.length > 8000 then query.take 8000 else query)
          = some values →
      values ≠ [] → (generateQueryEmbedding p query).1 = .ok values) := by
  have hlen : (if query.length > 8000 then query.take 8000
      else query).length ≤ 8000 := by
    split
    · rw [List.length_take]
      exact min_le_left _ _
    · next h => exact Nat.le_of_not_lt h
  rcases hp : p.embed (if query.length > 8000 then query.take 8000
      else query) with _ | values
  · have hmain : generateQueryEmbedding p query =
        (.error ⟨query.take 100, query.length⟩,
          [if query.length > 8000 then query.take 8000 else query]) := by
      rw [generateQueryEmbedding]
      simp [hp]
    rw [hmain]
    refine ⟨?_, rfl, ?_, ?_⟩
    · intro s hs
      simp only [List.mem_singleton] at hs
      rw [hs]
      exact hlen
    · intro e he
      simp only [Except.error.injEq] at he
      exact ⟨he.symm, Or.inl rfl⟩
    · intro values hv
      simp at hv
  · rcases values with _ | ⟨v, vs⟩
    · have hmain : generateQueryEmbedding p query =
          (.error ⟨query.take 100, query.length⟩,
            [if query.length > 8000 then query.take 8000 else query]) := by
        rw [generateQueryEmbedding]
        simp [hp]
      rw [hmain]
      refine ⟨?_, rfl, ?_, ?_⟩
      · intro s hs
        simp only [List.mem_singleton] at hs
        rw [hs]
        exact hlen
      · intro e he
        simp only [Except.error.injEq] at he
        exact ⟨he.symm, Or.inr rfl⟩
      · intro values hv hne
        simp only [Option.some.injEq] at hv
        exact absurd hv.symm hne
    · have hmain : generateQueryEmbedding p query =
          (.ok (v :: vs),
            [if query.length > 8000 then query.take 8000 else query]) := by
        rw [generateQueryEmbedding]
        simp [hp]
      rw [hmain]
      refine ⟨?_, rfl, ?_, ?_⟩
      · intro s hs
        simp only [List.mem_singleton] at hs
        rw [hs]
        exact hlen
      · intro e he
        simp at he
      · intro values hv hne
        simp only [Option.some.injEq] at hv
        rw [← hv]

/-- C8, witness: a provider returning a one-element embedding for the
two-character query "hi" yields a successful result. -/
theorem generateQueryEmbedding_contract_witness :
    (generateQueryEmbedding (⟨fun _ => some [1]⟩ : EmbedProvider)
        "hi".data).1 = .ok [1] :=
  (generateQueryEmbedding_contract ⟨fun _ => some [1]⟩ "hi".data).2.2.2 [1]
    (by decide) (by decide)

/-- C10.  When the analyzer extracts no identifiers and no keywords, the
hybrid pass is literally the pure-vector search at the caller's threshold
and limit: same store query, same rows, same trace. -/
theorem hybrid_no_terms_is_pure_vector (st : Store) (query : Str) (t : ℚ)
    (lim : Nat) (h : extractQueryIdentifiers query = ⟨[], []⟩) :
    hybridVectorSearch st query t lim = executeVectorSearch st t lim := by
  have hterms : hybridSearchTerms query = [] := by
    rw [hybridSearchTerms, h]
    rfl
  rw [hybridVectorSearch, hterms]
  simp

theorem hybridVectorSearch_fail {st : Store} {q : Str} (t : ℚ) (lim : Nat)
    (hf : st.hybridFails = true) (hne : hybridSearchTerms q ≠ []) :
    hybridVectorSearch st q t lim =
      (.error (), [.hybridQ (hybridSearchTerms q) (hybridThreshold t) lim]) := by
  have hE : (hybridSearchTerms q).isEmpty = false := by
    cases h2 : hybridSearchTerms q
    · exact absurd h2 hne
    · rfl
  simp [hybridVectorSearch, hE, Store.exec, hf]

theorem tryKeywordSearch_fail {st : Store} {q : Str} (lim : Nat)
    (hf : st.keywordFails = true) (hne : keywordSearchTerms q ≠ []) :
    tryKeywordSearch st q lim =
      (none, [.keywordQ (keywordSearchTerms q) lim]) := by
  have hE : (keywordSearchTerms q).isEmpty = false := by
    cases h2 : keywordSearchTerms q
    · exact absurd h2 hne
    · rfl
  simp [tryKeywordSearch, hE, Store.exec, hf]

theorem keywordStep_eq_try {st : Store} {q : Str} (lim : Nat)
    (hgate : (extractQueryIdentifiers q).identifiers ≠ [] ∨
      (extractQueryIdentifiers q).keywords ≠ []) :
    keywordStep st q lim = tryKeywordSearch st q lim := by
  rw [keywordStep]
  have : (!(extractQueryIdentifiers q).identifiers.isEmpty ||
      !(extractQueryIdentifiers q).keywords.isEmpty) = true := by
    rcases hgate with hg | hg
    · cases h2 : (extractQueryIdentifiers q).identifiers
      · exact absurd h2 hg
      · simp [h2]
    · cases h2 : (extractQueryIdentifiers q).keywords
      · exact absurd h2 hg
      · simp [h2]
  rw [this]
  simp

theorem vectorSearch_trace_eq (st : Store) (q : Str) (opts : QueryOptions) :
    (vectorSearch st q opts).2 =
      (searchRows st q (opts.threshold.getD DEFAULT_THRESHOLD)
        (opts.limit.getD DEFAULT_LIMIT)).2 := by
  rw [vectorSearch]
  split
  · next heq => rw [heq]
  · next heq => rw [heq]

theorem vectorSearch_error_of_searchRows {st : Store} {q : Str}
    {opts : QueryOptions} {e : Unit}
    (h : (searchRows st q (opts.threshold.getD DEFAULT_THRESHOLD)
      (opts.limit.getD DEFAULT_LIMIT)).1 = .error e) :
    (vectorSearch st q opts).1 = .error ⟨q, opts.limit, opts.threshold⟩ := by
  rcases hS : searchRows st q (opts.threshold.getD DEFAULT_THRESHOLD)
    (opts.limit.getD DEFAULT_LIMIT) with ⟨xs, trs⟩
  rw [hS] at h
  simp only at h
  subst h
  simp only [vectorSearch]
  rw [hS]

theorem fallbackLoop_error_at {st : Store} {lim : Nat} :
    ∀ (pre : List ℚ) (t1 : ℚ) (post : List ℚ),
      (∀ x ∈ pre, st.vectorFails x = false ∧
        vectorSqlRows st.table x lim = []) →
      st.vectorFails t1 = true →
      (fallbackLoop st lim (pre ++ t1 :: post)).1 = .error () := by
  intro pre
  induction pre with
  | nil =>
    intro t1 post _ hvf
    rw [List.nil_append, fallbackLoop]
    have hex : executeVectorSearch st t1 lim =
        (.error (), [.vectorQ t1 lim]) := by
      simp [executeVectorSearch, Store.exec, hvf]
    rw [hex]
  | cons x pre ih =>
    intro t1 post hpre hvf
    obtain ⟨hx1, hx2⟩ := hpre x (by simp)
    have hex : executeVectorSearch st x lim =
        (.ok (vectorSqlRows st.table x lim), [.vectorQ x lim]) := by
      simp [executeVectorSearch, Store.exec, hx1]
    rw [List.cons_append, fallbackLoop, hex]
    simp only [hx2, List.isEmpty_nil, if_true]
    exact ih t1 post (fun y hy => hpre y (by simp [hy])) hvf

/-- C3, amended.  Any error surfacing from `search` carries the original
query and the requested limit and threshold; a store failure in the hybrid
pass (step 1), in the pure-vector pass (step 3) or in the threshold
cascade (step 4) aborts the whole call with that error; but a store
failure in the keyword-priority step (step 2) is caught and absorbed — the
keyword query is issued, its failure produces no error, and the cascade
continues with the pure-vector query at the original threshold. -/
theorem searchError_propagation (st : Store) (q : Str) (opts : QueryOptions) :
    (∀ e tr, vectorSearch st q opts = (.error e, tr) →
      e = ⟨q, opts.limit, opts.threshold⟩) ∧
    (st.hybridFails = true → hybridSearchTerms q ≠ [] →
      (vectorSearch st q opts).1 = .error ⟨q, opts.limit, opts.threshold⟩) ∧
    ((hybridVectorSearch st q (opts.threshold.getD DEFAULT_THRESHOLD)
        (opts.limit.getD DEFAULT_LIMIT)).1 = .ok [] →
      st.keywordFails = true → keywordSearchTerms q ≠ [] →
      ((extractQueryIdentifiers q).identifiers ≠ [] ∨
        (extractQueryIdentifiers q).keywords ≠ []) →
      ∃ rest, (vectorSearch st q opts).2 =
        (hybridVectorSearch st q (opts.threshold.getD DEFAULT_THRESHOLD)
          (opts.limit.getD DEFAULT_LIMIT)).2 ++
        [.keywordQ (keywordSearchTerms q) (opts.limit.getD DEFAULT_LIMIT),
         .vectorQ (opts.threshold.getD DEFAULT_THRESHOLD)
           (opts.limit.getD DEFAULT_LIMIT)] ++ rest) ∧
    ((hybridVectorSearch st q (opts.threshold.getD DEFAULT_THRESHOLD)
        (opts.limit.getD DEFAULT_LIMIT)).1 = .ok [] →
      (keywordStep st q (opts.limit.getD DEFAULT_LIMIT)).1 = none →
      st.vectorFails (opts.threshold.getD DEFAULT_THRESHOLD) = true →
      (vectorSearch st q opts).1 = .error ⟨q, opts.limit, opts.threshold⟩) ∧
    (∀ (pre : List ℚ) (t1 : ℚ) (post : List ℚ),
      (hybridVectorSearch st q (opts.threshold.getD DEFAULT_THRESHOLD)
        (opts.limit.getD DEFAULT_LIMIT)).1 = .ok [] →
      (keywordStep st q (opts.limit.getD DEFAULT_LIMIT)).1 = none →
      (executeVectorSearch st (opts.threshold.getD DEFAULT_THRESHOLD)
        (opts.limit.getD DEFAULT_LIMIT)).1 = .ok [] →
      fallbackThresholds (opts.threshold.getD DEFAULT_THRESHOLD) =
        pre ++ t1 :: post →
      (∀ x ∈ pre, st.vectorFails x = false ∧
        vectorSqlRows st.table x (opts.limit.getD DEFAULT_LIMIT) = []) →
      st.vectorFails t1 = true →
      (vectorSearch st q opts).1 = .error ⟨q, opts.limit, opts.threshold⟩) := by
  refine ⟨?_, ?_, ?_, ?_, ?_⟩
  · intro e tr h
    rw [vectorSearch] at h
    split at h
    · simp only [Prod.mk.injEq, Except.error.injEq] at h
      exact h.1.symm
    · simp only [Prod.mk.injEq] at h
      exact absurd h.1 (by simp)
  · intro hf hne
    have h1 := @hybridVectorSearch_fail st q
      (opts.threshold.getD DEFAULT_THRESHOLD)
      (opts.limit.getD DEFAULT_LIMIT) hf hne
    rw [vectorSearch]
    have h2 : searchRows st q (opts.threshold.getD DEFAULT_THRESHOLD)
        (opts.limit.getD DEFAULT_LIMIT) =
        (.error (), [.hybridQ (hybridSearchTerms q)
          (hybridThreshold (opts.threshold.getD DEFAULT_THRESHOLD))
          (opts.limit.getD DEFAULT_LIMIT)]) := by
      rw [searchRows, h1]
    rw [h2]
  · intro hhy hkf hkne hgate
    rcases hH : hybridVectorSearch st q (opts.threshold.getD DEFAULT_THRESHOLD)
      (opts.limit.getD DEFAULT_LIMIT) with ⟨x, tr1⟩
    rw [hH] at hhy
    simp only at hhy
    subst hhy
    have hks : keywordStep st q (opts.limit.getD DEFAULT_LIMIT) =
        (none, [.keywordQ (keywordSearchTerms q)
          (opts.limit.getD DEFAULT_LIMIT)]) := by
      rw [keywordStep_eq_try _ hgate,
        tryKeywordSearch_fail _ hkf hkne]
    rw [vectorSearch_trace_eq]
    rcases hV : executeVectorSearch st (opts.threshold.getD DEFAULT_THRESHOLD)
      (opts.limit.getD DEFAULT_LIMIT) with ⟨xv, tr3⟩
    have htr3 : tr3 = [.vectorQ (opts.threshold.getD DEFAULT_THRESHOLD)
        (opts.limit.getD DEFAULT_LIMIT)] := by
      have := executeVectorSearch_trace st
        (opts.threshold.getD DEFAULT_THRESHOLD)
        (opts.limit.getD DEFAULT_LIMIT)
      rw [hV] at this
      exact this
    subst htr3
    cases xv with
    | error e =>
      refine ⟨[], ?_⟩
      rw [searchRows, hH]
      simp [hks, hV]
    | ok vrows =>
      by_cases hvE : vrows.isEmpty
      · rcases hF : trySearchWithFallbackThresholds st
          (opts.threshold.getD DEFAULT_THRESHOLD)
          (opts.limit.getD DEFAULT_LIMIT) with ⟨xf, tr4⟩
        refine ⟨tr4, ?_⟩
        rw [searchRows, hH]
        cases xf <;> simp [hks, hV, hvE, hF]
      · refine ⟨[], ?_⟩
        rw [searchRows, hH]
        simp [hks, hV, hvE]
  · intro hhy hks hvf
    have hsr : (searchRows st q (opts.threshold.getD DEFAULT_THRESHOLD)
        (opts.limit.getD DEFAULT_LIMIT)).1 = Except.error () := by
      rcases hH : hybridVectorSearch st q
        (opts.threshold.getD DEFAULT_THRESHOLD)
        (opts.limit.getD DEFAULT_LIMIT) with ⟨x, tr1⟩
      rw [hH] at hhy
      simp only at hhy
      subst hhy
      rcases hK : keywordStep st q (opts.limit.getD DEFAULT_LIMIT)
        with ⟨ko, tr2⟩
      rw [hK] at hks
      simp only at hks
      subst hks
      have hex : executeVectorSearch st
          (opts.threshold.getD DEFAULT_THRESHOLD)
          (opts.limit.getD DEFAULT_LIMIT) =
          (.error (), [.vectorQ (opts.threshold.getD DEFAULT_THRESHOLD)
            (opts.limit.getD DEFAULT_LIMIT)]) := by
        simp [executeVectorSearch, Store.exec, hvf]
      rw [searchRows, hH]
      simp [hK, hex]
    exact vectorSearch_error_of_searchRows hsr
  · intro pre t1 post hhy hks hvec hlad hpre hvf
    have hsr : (searchRows st q (opts.threshold.getD DEFAULT_THRESHOLD)
        (opts.limit.getD DEFAULT_LIMIT)).1 = Except.error () := by
      rcases hH : hybridVectorSearch st q
        (opts.threshold.getD DEFAULT_THRESHOLD)
        (opts.limit.getD DEFAULT_LIMIT) with ⟨x, tr1⟩
      rw [hH] at hhy
      simp only at hhy
      subst hhy
      rcases hK : keywordStep st q (opts.limit.getD DEFAULT_LIMIT)
        with ⟨ko, tr2⟩
      rw [hK] at hks
      simp only at hks
      subst hks
      rcases hV : executeVectorSearch st
        (opts.threshold.getD DEFAULT_THRESHOLD)
        (opts.limit.getD DEFAULT_LIMIT) with ⟨xv, tr3⟩
      rw [hV] at hvec
      simp only at hvec
      subst hvec
      have herr : (trySearchWithFallbackThresholds st
          (opts.threshold.getD DEFAULT_THRESHOLD)
          (opts.limit.getD DEFAULT_LIMIT)).1 = Except.error () := by
        show (fallbackLoop st (opts.limit.getD DEFAULT_LIMIT)
          (fallbackThresholds
            (opts.threshold.getD DEFAULT_THRESHOLD))).1 = Except.error ()
        rw [hlad]
        exact fallbackLoop_error_at pre t1 post hpre hvf
      rcases hF : trySearchWithFallbackThresholds st
        (opts.threshold.getD DEFAULT_THRESHOLD)
        (opts.limit.getD DEFAULT_LIMIT) with ⟨xf, tr4⟩
      rw [hF] at herr
      simp only at herr
      subst herr
      rw [searchRows, hH]
      simp [hK, hV, hF]
    exact vectorSearch_error_of_searchRows hsr

/-- C3, witness: at the concrete failing-keyword store, conjunct three of
the propagation theorem applies — the keyword query is issued, absorbed,
and followed by the pure-vector query; and at stores whose pure-vector or
cascade queries fail, conjuncts four and five apply — the call aborts with
the context-carrying error. -/
theorem searchError_propagation_witness :
    (∃ rest, (vectorSearch ⟨[⟨1, "alpha".data, "beta".data, 3/4⟩], false,
        true, fun _ => false⟩ "hello".data ⟨some 5, some (4/5)⟩).2 =
      (hybridVectorSearch ⟨[⟨1, "alpha".data, "beta".data, 3/4⟩], false,
        true, fun _ => false⟩ "hello".data (4/5) 5).2 ++
      [.keywordQ (keywordSearchTerms "hello".data) 5,
       .vectorQ (4/5) 5] ++ rest) ∧
    (vectorSearch ⟨[⟨1, "alpha".data, "beta".data, 3/4⟩], false, false,
        fun _ => true⟩ "hello".data ⟨some 5, some (4/5)⟩).1 =
      .error ⟨"hello".data, some 5, some (4/5)⟩ ∧
    (vectorSearch ⟨[⟨1, "alpha".data, "beta".data, 3/4⟩], false, false,
        fun x => decide (x = 14/25)⟩ "hello".data
        ⟨some 5, some (4/5)⟩).1 =
      .error ⟨"hello".data, some 5, some (4/5)⟩ :=
  ⟨(searchError_propagation ⟨[⟨1, "alpha".data, "beta".data, 3/4⟩], false,
      true, fun _ => false⟩ "hello".data ⟨some 5, some (4/5)⟩).2.2.1
      (by decide) rfl (by decide) (by decide),
   (searchError_propagation ⟨[⟨1, "alpha".data, "beta".data, 3/4⟩], false,
      false, fun _ => true⟩ "hello".data ⟨some 5, some (4/5)⟩).2.2.2.1
      (by decide) (by decide) rfl,
   (searchError_propagation ⟨[⟨1, "alpha".data, "beta".data, 3/4⟩], false,
      false, fun x => decide (x = 14/25)⟩ "hello".data
      ⟨some 5, some (4/5)⟩).2.2.2.2
      [] (14/25) [2/5, 1/10, 1/20, 1/100, 0]
      (by decide) (by decide) (by decide) (by decide) (by decide)
      (by decide)⟩

/-- C4, amended.  In hybrid mode (nonempty search terms, a successful
hybrid store query, limit at least the table size) a stored row is
retrieved if and only if its base similarity strictly exceeds the clamped
gate `max(0, threshold − 0.5)` or some search term matches its title or
content case-insensitively. -/
theorem hybrid_qualification_iff (st : Store) (q : Str) (t : ℚ) (lim : Nat)
    (rows : List RRow) (hterms : hybridSearchTerms q ≠ [])
    (hlim : st.table.length ≤ lim)
    (hok : (hybridVectorSearch st q t lim).1 = .ok rows) :
    ∀ r ∈ st.table,
      (toHybridRRow (hybridSearchTerms q) r ∈ rows ↔
        (1 - r.distance > max 0 (t - 1/2) ∨
          lexMatch (hybridSearchTerms q) r = true)) := by
  rcases hH : hybridVectorSearch st q t lim with ⟨x, tr⟩
  rw [hH] at hok
  simp only at hok
  subst hok
  rcases hybridVectorSearch_ok hH with ⟨hn, _⟩ | ⟨_, hrows⟩
  · exact absurd hn hterms
  subst hrows
  intro r hr
  constructor
  · intro hmem
    obtain ⟨r0, _, heq, hq⟩ := mem_hybridSqlRows hmem
    simp only [toHybridRRow, RRow.mk.injEq, Option.some.injEq] at heq
    obtain ⟨_, htitle, hcontent, _, hbase, _⟩ := heq
    rw [hybridQualifies, Bool.or_eq_true, decide_eq_true_eq] at hq
    have hlexeq : lexMatch (hybridSearchTerms q) r0 =
        lexMatch (hybridSearchTerms q) r := by
      rw [lexMatch, lexMatch, ← htitle, ← hcontent]
    rcases hq with hq | hq
    · left
      rw [hybridThreshold] at hq
      rw [hbase]
      exact hq
    · right
      rw [← hlexeq]
      exact hq
  · intro hq
    apply hybridSqlRows_mem_of hr hlim
    rw [hybridQualifies, Bool.or_eq_true, decide_eq_true_eq]
    rcases hq with hq | hq
    · left
      rw [hybridThreshold]
      exact hq
    · right
      exact hq

/-- C4, witness: a store with one row whose content contains "xyz" — the
row is retrieved for the query "xyz" and the equivalence holds on the
concrete table. -/
theorem hybrid_qualification_iff_witness :
    toHybridRRow (hybridSearchTerms "xyz".data)
        ⟨1, "alpha".data, "the xyz file".data, 21/20⟩ ∈
      [(⟨1, "alpha".data, "the xyz file".data, 1/4, some (-(1/20)),
        some (3/10)⟩ : RRow)] ↔
      (1 - (⟨1, "alpha".data, "the xyz file".data, 21/20⟩ : DbRow).distance >
          max 0 ((3/10 : ℚ) - 1/2) ∨
        lexMatch (hybridSearchTerms "xyz".data)
          ⟨1, "alpha".data, "the xyz file".data, 21/20⟩ = true) :=
  hybrid_qualification_iff
    ⟨[⟨1, "alpha".data, "the xyz file".data, 21/20⟩], false, false,
      fun _ => false⟩ "xyz".data (3/10) 5
    [⟨1, "alpha".data, "the xyz file".data, 1/4, some (-(1/20)),
      some (3/10)⟩]
    (by decide) (by decide) (by decide)
    ⟨1, "alpha".data, "the xyz file".data, 21/20⟩ (by decide)

/-- C9.  In the multilingual variant, when the call reaches the
cross-language retry (initial pass and every fallback threshold empty) and
the translation call fails, the search does not throw: the translator's
catch falls back to the original query, whose threshold-0 search repeats an
already-empty query, so the call terminates with the empty result it
already had. -/
theorem translation_failure_nonfatal (env : Multilingual.MLEnv) (q : Str)
    (opts : QueryOptions)
    (htr : env.translationResult q = none)
    (hemb : env.embedFails q = false)
    (h1 : vectorSqlRows (env.table q) (opts.threshold.getD DEFAULT_THRESHOLD)
      (opts.limit.getD DEFAULT_LIMIT) = [])
    (h2 : ∀ x ∈ Multilingual.fallbackThresholdsML
        (opts.threshold.getD DEFAULT_THRESHOLD),
      vectorSqlRows (env.table q) x (opts.limit.getD DEFAULT_LIMIT) = []) :
    Multilingual.vectorSearchML env q opts = .ok [] := by
  have hzero : vectorSqlRows (env.table q) 0
      (opts.limit.getD DEFAULT_LIMIT) = [] := by
    by_cases hpos : 0 < opts.threshold.getD DEFAULT_THRESHOLD
    · apply h2
      simp only [Multilingual.fallbackThresholdsML, List.mem_filter]
      refine ⟨by simp, by simpa using hpos⟩
    · exact vectorSqlRows_empty_mono h1 (le_of_not_lt hpos)
  have htrq : Multilingual.translateQueryToIndonesian env q = q := by
    rw [Multilingual.translateQueryToIndonesian, htr]
  rw [Multilingual.vectorSearchML]
  simp only [hemb, Bool.false_eq_true, if_false, h1, List.isEmpty_nil,
    Bool.not_true, if_false]
  rw [firstHit_none h2]
  rw [htrq]
  simp [hemb, hzero, Multilingual.mapRowsToDocumentsML]

/-- C9, witness: a store whose only document is far from the query
embedding (similarity −1) and a failing translator — the call returns the
empty list. -/
theorem translation_failure_nonfatal_witness :
    Multilingual.vectorSearchML
      ⟨fun _ => [⟨1, "t".data, "c".data, 2⟩], fun _ => false, fun _ => none⟩
      "hi".data ⟨some 5, some (3/10)⟩ = .ok [] :=
  translation_failure_nonfatal
    ⟨fun _ => [⟨1, "t".data, "c".data, 2⟩], fun _ => false, fun _ => none⟩
    "hi".data ⟨some 5, some (3/10)⟩ rfl rfl (by decide) (by decide)

theorem hybridSearchTerms_ne {q : Str}
    (hgate : (extractQueryIdentifiers q).identifiers ≠ [] ∨
      (extractQueryIdentifiers q).keywords ≠ []) :
    hybridSearchTerms q ≠ [] := by
  rw [hybridSearchTerms]
  intro hc
  rcases List.append_eq_nil.mp hc with ⟨h1, h2⟩
  rcases hgate with hg | hg
  · exact hg h1
  · rcases List.take_eq_nil_iff.mp h2 with h | h <;>
      first
        | exact hg h
        | exact absurd h (by norm_num)

theorem hybridVectorSearch_trace_of_ne {st : Store} {q : Str} (t : ℚ)
    (lim : Nat) (hne : hybridSearchTerms q ≠ []) :
    (hybridVectorSearch st q t lim).2 =
      [.hybridQ (hybridSearchTerms q) (hybridThreshold t) lim] := by
  have hE : (hybridSearchTerms q).isEmpty = false := by
    cases h2 : hybridSearchTerms q
    · exact absurd h2 hne
    · rfl
  simp only [hybridVectorSearch, hE, Bool.false_eq_true, if_false]
  cases st.exec (.hybridQ (hybridSearchTerms q) (hybridThreshold t) lim) <;>
    rfl

theorem tryKeywordSearch_trace (st : Store) (q : Str) (lim : Nat) :
    (tryKeywordSearch st q lim).2 = [] ∨
      (tryKeywordSearch st q lim).2 =
        [.keywordQ (keywordSearchTerms q) lim] := by
  rw [tryKeywordSearch]
  split
  · left
    rfl
  · cases st.exec (.keywordQ (keywordSearchTerms q) lim)
    · right
      rfl
    · right
      rfl

theorem executeVectorSearch_ok_of {st : Store} {t : ℚ} (lim : Nat)
    (hvf : st.vectorFails t = false) :
    executeVectorSearch st t lim =
      (.ok (vectorSqlRows st.table t lim), [.vectorQ t lim]) := by
  simp [executeVectorSearch, Store.exec, hvf]

/-- Full characterization of the fallback loop: a successful hit is the
query result at the first threshold in the list with a nonempty result, and
the trace is exactly the attempted prefix. -/
theorem fallbackLoop_spec {st : Store} {lim : Nat} {ts : List ℚ}
    {rows : List RRow}
    (hfail : ∀ x ∈ ts, st.vectorFails x = false)
    (hok : (fallbackLoop st lim ts).1 = .ok (some rows)) :
    ∃ pre t1 post, ts = pre ++ t1 :: post ∧
      (∀ x ∈ pre, vectorSqlRows st.table x lim = []) ∧
      rows = vectorSqlRows st.table t1 lim ∧ rows ≠ [] ∧
      (fallbackLoop st lim ts).2 =
        (pre ++ [t1]).map (fun x => StoreOp.vectorQ x lim) := by
  induction ts with
  | nil =>
    rw [fallbackLoop] at hok
    simp at hok
  | cons t ts ih =>
    have hvf : st.vectorFails t = false := hfail t (by simp)
    have hexec := @executeVectorSearch_ok_of st t lim hvf
    cases hE : (vectorSqlRows st.table t lim).isEmpty with
    | true =>
      have hstep : fallbackLoop st lim (t :: ts) =
          ((fallbackLoop st lim ts).1,
            [.vectorQ t lim] ++ (fallbackLoop st lim ts).2) := by
        rw [fallbackLoop, hexec]
        simp [hE]
      rw [hstep] at hok
      obtain ⟨pre, t1, post, hts, hpre, hrows, hne, htr⟩ :=
        ih (fun x hx => hfail x (by simp [hx])) hok
      refine ⟨t :: pre, t1, post, by simp [hts], ?_, hrows, hne, ?_⟩
      · intro x hx
        rcases List.mem_cons.mp hx with hx | hx
        · rw [hx]
          exact List.isEmpty_iff.mp hE
        · exact hpre x hx
      · rw [hstep]
        simp [htr]
    | false =>
      have hstep : fallbackLoop st lim (t :: ts) =
          (.ok (some (vectorSqlRows st.table t lim)), [.vectorQ t lim]) := by
        rw [fallbackLoop, hexec]
        simp [hE]
      rw [hstep] at hok
      simp only [Except.ok.injEq, Option.some.injEq] at hok
      refine ⟨[], t, ts, rfl, by simp, hok.symm, ?_, by rw [hstep]; simp⟩
      rw [← hok]
      intro hc
      rw [hc] at hE
      simp at hE

/-- A successful fallback-loop hit comes from one of the listed thresholds
(regardless of which later queries would fail). -/
theorem fallbackLoop_ok_mem {st : Store} {lim : Nat} {ts : List ℚ}
    {rows : List RRow}
    (hok : (fallbackLoop st lim ts).1 = .ok (some rows)) :
    ∃ t1 ∈ ts, rows = vectorSqlRows st.table t1 lim := by
  induction ts with
  | nil =>
    rw [fallbackLoop] at hok
    simp at hok
  | cons t ts ih =>
    rw [fallbackLoop] at hok
    rcases hX : executeVectorSearch st t lim with ⟨xr, tr⟩
    rw [hX] at hok
    cases xr with
    | error e => simp at hok
    | ok rows0 =>
      cases hE : rows0.isEmpty with
      | true =>
        simp only [hE, if_true] at hok
        obtain ⟨t1, ht1, heq⟩ := ih hok
        exact ⟨t1, by simp [ht1], heq⟩
      | false =>
        simp only [hE, Bool.false_eq_true, if_false] at hok
        simp only [Except.ok.injEq, Option.some.injEq] at hok
        obtain ⟨hr0, _, _⟩ := executeVectorSearch_ok hX
        exact ⟨t, by simp, by rw [← hok, hr0]⟩

/-- Similarities of rows surviving the hybrid post-filter are nonnegative
when the caller threshold is nonnegative. -/
theorem hybrid_row_filter_nonneg {terms : List Str} {t : ℚ} {r0 : DbRow}
    (ht : 0 ≤ t)
    (hp : passesPostFilter t (toHybridRRow terms r0) = true) :
    0 ≤ (toHybridRRow terms r0).similarity := by
  have htb := titleBoost_nonneg terms r0
  have hcb := contentBoost_nonneg terms r0
  rw [passesPostFilter] at hp
  simp only [toHybridRRow, Option.getD_some] at hp ⊢
  split at hp
  · rw [Bool.or_eq_true, decide_eq_true_eq, decide_eq_true_eq] at hp
    rcases hp with hp | hp
    · linarith
    · rw [hybridSimilarity]
      apply le_min (by norm_num)
      linarith
  · split at hp
    · rw [decide_eq_true_eq] at hp
      have h25 : ((2 : ℚ)/5) ≤ max (t - 1/5) (2/5) := le_max_right _ _
      linarith
    · rw [decide_eq_true_eq] at hp
      linarith

/-- Every row in the list handed to the result mapper has nonnegative
similarity, provided the threshold is nonnegative and the hybrid post-filter
path is not bypassed (no raw hybrid rows are returned unfiltered). -/
theorem searchRows_sim_nonneg {st : Store} {q : Str} {t : ℚ} {lim : Nat}
    {rows : List RRow} {tr : List StoreOp}
    (hres : searchRows st q t lim = (.ok rows, tr))
    (ht : 0 ≤ t)
    (hnb : ((hybridVectorSearch st q t lim).1.toOption.getD []) = [] ∨
      (((hybridVectorSearch st q t lim).1.toOption.getD []).filter
        (passesPostFilter t)) ≠ []) :
    ∀ r ∈ rows, 0 ≤ r.similarity := by
  rcases hH : hybridVectorSearch st q t lim with ⟨x, tr1⟩
  rw [hH] at hnb
  rw [searchRows, hH] at hres
  cases x with
  | error e => simp at hres
  | ok hrows =>
    cases hE : hrows.isEmpty with
    | true =>
      simp only [hE, if_true] at hres
      rcases hK : keywordStep st q lim with ⟨ko, tr2⟩
      rw [hK] at hres
      cases ko with
      | some krows =>
        simp only [Prod.mk.injEq, Except.ok.injEq] at hres
        obtain ⟨hkr, _, _, _⟩ := tryKeywordSearch_some (keywordStep_some hK)
        intro r hr
        rw [← hres.1] at hr
        rw [hkr] at hr
        rw [keywordSqlRows_sim hr]
        norm_num
      | none =>
        rcases hV : executeVectorSearch st t lim with ⟨xv, tr3⟩
        rw [hV] at hres
        cases xv with
        | error e => simp at hres
        | ok vrows =>
          cases hvE : vrows.isEmpty with
          | true =>
            simp only [hvE, if_true] at hres
            rcases hF : trySearchWithFallbackThresholds st t lim with ⟨xf, tr4⟩
            rw [hF] at hres
            cases xf with
            | error e => simp at hres
            | ok fres =>
              simp only [Prod.mk.injEq, Except.ok.injEq] at hres
              cases fres with
              | none =>
                intro r hr
                rw [← hres.1] at hr
                simp at hr
              | some frows =>
                have hok : (fallbackLoop st lim (fallbackThresholds t)).1 =
                    .ok (some frows) := by
                  have heq : trySearchWithFallbackThresholds st t lim =
                      fallbackLoop st lim (fallbackThresholds t) := rfl
                  rw [← heq, hF]
                obtain ⟨t1, ht1, hfr⟩ := fallbackLoop_ok_mem hok
                intro r hr
                rw [← hres.1] at hr
                simp only [Option.getD_some] at hr
                rw [hfr] at hr
                have hgt := vectorSqlRows_sim hr
                have hnn := fallbackThresholds_nonneg ht1
                linarith
          | false =>
            simp only [hvE, if_false, Bool.false_eq_true] at hres
            simp only [Prod.mk.injEq, Except.ok.injEq] at hres
            obtain ⟨hvr, _, _⟩ := executeVectorSearch_ok hV
            intro r hr
            rw [← hres.1, hvr] at hr
            have := vectorSqlRows_sim hr
            linarith
    | false =>
      simp only [hE, if_false, Bool.false_eq_true] at hres
      have hnb2 : hrows.filter (passesPostFilter t) ≠ [] := by
        rcases hnb with hnb | hnb
        · simp only [Except.toOption, Option.getD_some] at hnb
          rw [hnb] at hE
          simp at hE
        · simpa using hnb
      have hfE : (hrows.filter (passesPostFilter t)).isEmpty = false := by
        cases h2 : hrows.filter (passesPostFilter t)
        · exact absurd h2 hnb2
        · rfl
      rw [hfE] at hres
      simp only [Bool.false_eq_true, if_false, Prod.mk.injEq,
        Except.ok.injEq] at hres
      intro r hr
      rw [← hres.1] at hr
      rw [List.mem_filter] at hr
      rcases hybridVectorSearch_ok hH with ⟨_, hrv⟩ | ⟨_, hrh⟩
      · rw [hrv] at hr
        have := vectorSqlRows_sim hr.1
        linarith
      · rw [hrh] at hr
        obtain ⟨r0, _, heq, _⟩ := mem_hybridSqlRows hr.1
        rw [heq]
        apply hybrid_row_filter_nonneg ht
        rw [← heq]
        exact hr.2

/-- C2, amended.  Every similarity `search` returns is at most 1 (the cap
holds unconditionally).  With a nonnegative caller threshold, every
returned similarity is also nonnegative provided the hybrid post-filter
path is not bypassed (the hybrid pass returned no raw rows, or at least one
raw row survived the post-filter); when the post-filter eliminates every
raw row, the raw rows are returned unfiltered and may carry negative
similarity. -/
theorem vectorSearch_similarity_bounds (st : Store) (q : Str)
    (opts : QueryOptions) (docs : List VDoc)
    (h : (vectorSearch st q opts).1 = .ok docs) :
    (∀ d ∈ docs, d.similarity ≤ 1) ∧
    (0 ≤ opts.threshold.getD DEFAULT_THRESHOLD →
      (((hybridVectorSearch st q (opts.threshold.getD DEFAULT_THRESHOLD)
          (opts.limit.getD DEFAULT_LIMIT)).1.toOption.getD []) = [] ∨
        (((hybridVectorSearch st q (opts.threshold.getD DEFAULT_THRESHOLD)
          (opts.limit.getD DEFAULT_LIMIT)).1.toOption.getD []).filter
          (passesPostFilter (opts.threshold.getD DEFAULT_THRESHOLD))) ≠ []) →
      ∀ d ∈ docs, 0 ≤ d.similarity) := by
  rcases hS : searchRows st q (opts.threshold.getD DEFAULT_THRESHOLD)
    (opts.limit.getD DEFAULT_LIMIT) with ⟨xs, trs⟩
  simp only [vectorSearch] at h
  rw [hS] at h
  cases xs with
  | error e => simp at h
  | ok rows =>
    simp only [Except.ok.injEq] at h
    subst h
    constructor
    · intro d hd
      exact mapRowsToDocuments_sim_le_one hd
    · intro ht hnb d hd
      exact mapRowsToDocuments_sim_nonneg (searchRows_sim_nonneg hS ht hnb) hd

/-- C2, witness: a one-document store where the hybrid row passes the
post-filter — the returned similarity 1/2 lies in [0, 1]. -/
theorem vectorSearch_similarity_bounds_witness :
    (∀ d ∈ [(⟨1, "a".data, "b".data, 1/2⟩ : VDoc)], d.similarity ≤ 1) ∧
    (∀ d ∈ [(⟨1, "a".data, "b".data, 1/2⟩ : VDoc)], 0 ≤ d.similarity) := by
  have h := vectorSearch_similarity_bounds
    ⟨[⟨1, "a".data, "b".data, 1/2⟩], false, false, fun _ => false⟩
    "hello".data ⟨some 5, some (3/10)⟩
    [⟨1, "a".data, "b".data, 1/2⟩] (by decide)
  exact ⟨h.1, h.2 (by norm_num) (by decide)⟩

/-- C5, amended.  The threshold cascade stops at the first threshold of its
ladder that returns at least one row, and when it hits, `search` returns
exactly those rows; but the ladder is
`[max(0.1, 0.7t), max(0.05, 0.5t), 0.1, 0.05, 0.01, 0]` with entries at or
above the original threshold removed — not the unclamped spec sequence.
The concrete conjunct realizes the spec's Scenario C: a document at
similarity 0.12 under original threshold 0.3 is found exactly at the 0.1
step, after 0.21 and 0.15 fail. -/
theorem threshold_cascade_first_hit :
    (∀ (st : Store) (lim : Nat) (ts : List ℚ) (rows : List RRow),
      (∀ x ∈ ts, st.vectorFails x = false) →
      (fallbackLoop st lim ts).1 = .ok (some rows) →
      ∃ pre t1 post, ts = pre ++ t1 :: post ∧
        (∀ x ∈ pre, vectorSqlRows st.table x lim = []) ∧
        rows = vectorSqlRows st.table t1 lim ∧ rows ≠ [] ∧
        (fallbackLoop st lim ts).2 =
          (pre ++ [t1]).map (fun x => StoreOp.vectorQ x lim)) ∧
    (∀ (st : Store) (q : Str) (opts : QueryOptions) (rows : List RRow),
      (hybridVectorSearch st q (opts.threshold.getD DEFAULT_THRESHOLD)
        (opts.limit.getD DEFAULT_LIMIT)).1 = .ok [] →
      (keywordStep st q (opts.limit.getD DEFAULT_LIMIT)).1 = none →
      (executeVectorSearch st (opts.threshold.getD DEFAULT_THRESHOLD)
        (opts.limit.getD DEFAULT_LIMIT)).1 = .ok [] →
      (trySearchWithFallbackThresholds st
        (opts.threshold.getD DEFAULT_THRESHOLD)
        (opts.limit.getD DEFAULT_LIMIT)).1 = .ok (some rows) →
      (vectorSearch st q opts).1 = .ok (mapRowsToDocuments rows)) ∧
    ((vectorSearch ⟨[⟨1, "t".data, "c".data, 22/25⟩], false, false,
        fun _ => false⟩ "1 2".data ⟨some 5, some (3/10)⟩).2 =
      [.vectorQ (3/10) 5, .vectorQ (3/10) 5, .vectorQ (21/100) 5,
       .vectorQ (3/20) 5, .vectorQ (1/10) 5] ∧
     (vectorSearch ⟨[⟨1, "t".data, "c".data, 22/25⟩], false, false,
        fun _ => false⟩ "1 2".data ⟨some 5, some (3/10)⟩).1 =
      .ok [⟨1, "t".data, "c".data, 3/25⟩] ∧
     fallbackThresholds (3/10) = [21/100, 3/20, 1/10, 1/20, 1/100, 0]) := by
  refine ⟨?_, ?_, by decide⟩
  · intro st lim ts rows hfail hok
    exact fallbackLoop_spec hfail hok
  · intro st q opts rows hhy hks hvec hfb
    rcases hH : hybridVectorSearch st q (opts.threshold.getD DEFAULT_THRESHOLD)
      (opts.limit.getD DEFAULT_LIMIT) with ⟨x, tr1⟩
    rw [hH] at hhy
    simp only at hhy
    subst hhy
    rcases hK : keywordStep st q (opts.limit.getD DEFAULT_LIMIT) with ⟨ko, tr2⟩
    rw [hK] at hks
    simp only at hks
    subst hks
    rcases hV : executeVectorSearch st (opts.threshold.getD DEFAULT_THRESHOLD)
      (opts.limit.getD DEFAULT_LIMIT) with ⟨xv, tr3⟩
    rw [hV] at hvec
    simp only at hvec
    subst hvec
    rcases hF : trySearchWithFallbackThresholds st
      (opts.threshold.getD DEFAULT_THRESHOLD)
      (opts.limit.getD DEFAULT_LIMIT) with ⟨xf, tr4⟩
    rw [hF] at hfb
    simp only at hfb
    subst hfb
    have hSR : searchRows st q (opts.threshold.getD DEFAULT_THRESHOLD)
        (opts.limit.getD DEFAULT_LIMIT) =
        (.ok rows, tr1 ++ tr2 ++ tr3 ++ tr4) := by
      rw [searchRows, hH]
      simp [hK, hV, hF]
    simp only [vectorSearch]
    rw [hSR]

/-- C5, witness: the loop characterization applied to the ladder
`[0.21, 0.1]` over a one-document store with similarity 0.12. -/
theorem threshold_cascade_first_hit_witness :
    ∃ pre t1 post, ([21/100, 1/10] : List ℚ) = pre ++ t1 :: post ∧
      (∀ x ∈ pre, vectorSqlRows
        (⟨[⟨1, "t".data, "c".data, 22/25⟩], false, false,
          fun _ => false⟩ : Store).table x 5 = []) ∧
      [(⟨1, "t".data, "c".data, 3/25, none, none⟩ : RRow)] =
        vectorSqlRows (⟨[⟨1, "t".data, "c".data, 22/25⟩], false, false,
          fun _ => false⟩ : Store).table t1 5 ∧
      [(⟨1, "t".data, "c".data, 3/25, none, none⟩ : RRow)] ≠ [] ∧
      (fallbackLoop ⟨[⟨1, "t".data, "c".data, 22/25⟩], false, false,
        fun _ => false⟩ 5 [21/100, 1/10]).2 =
        (pre ++ [t1]).map (fun x => StoreOp.vectorQ x 5) :=
  threshold_cascade_first_hit.1
    ⟨[⟨1, "t".data, "c".data, 22/25⟩], false, false, fun _ => false⟩ 5
    [21/100, 1/10] [⟨1, "t".data, "c".data, 3/25, none, none⟩]
    (by decide) (by decide)

/-- C6.  When the hybrid pass returns zero raw rows and the analyzer found
identifiers or keywords, the trace starts with the hybrid query followed
immediately by the keyword-priority step's queries — none of which is a
pure-vector query, so every vector/cascade query comes after them — and if
the keyword search returns rows the cascade terminates with exactly those
rows: the ordered ILIKE search over at most 5 keywords, every hit carrying
the placeholder similarity 0.5. -/
theorem keyword_priority_before_vector (st : Store) (q : Str)
    (opts : QueryOptions)
    (hhy : (hybridVectorSearch st q (opts.threshold.getD DEFAULT_THRESHOLD)
      (opts.limit.getD DEFAULT_LIMIT)).1 = .ok [])
    (hgate : (extractQueryIdentifiers q).identifiers ≠ [] ∨
      (extractQueryIdentifiers q).keywords ≠ []) :
    ∃ rest,
      (vectorSearch st q opts).2 =
        (hybridVectorSearch st q (opts.threshold.getD DEFAULT_THRESHOLD)
          (opts.limit.getD DEFAULT_LIMIT)).2 ++
        (tryKeywordSearch st q (opts.limit.getD DEFAULT_LIMIT)).2 ++ rest ∧
      (∀ op ∈ (hybridVectorSearch st q (opts.threshold.getD DEFAULT_THRESHOLD)
          (opts.limit.getD DEFAULT_LIMIT)).2 ++
          (tryKeywordSearch st q (opts.limit.getD DEFAULT_LIMIT)).2,
        ∀ t0 l0, op ≠ .vectorQ t0 l0) ∧
      (∀ krows,
        (tryKeywordSearch st q (opts.limit.getD DEFAULT_LIMIT)).1
            = some krows →
        rest = [] ∧
        (vectorSearch st q opts).1 = .ok (mapRowsToDocuments krows) ∧
        krows = keywordSqlRows st.table (keywordSearchTerms q)
          (opts.limit.getD DEFAULT_LIMIT) ∧
        (keywordSearchTerms q).length ≤ 5 ∧
        (∀ r ∈ krows, r.similarity = 1/2)) := by
  have hne := hybridSearchTerms_ne hgate
  have htr1 := @hybridVectorSearch_trace_of_ne st q
    (opts.threshold.getD DEFAULT_THRESHOLD) (opts.limit.getD DEFAULT_LIMIT)
    hne
  have hnotvec : ∀ op ∈ (hybridVectorSearch st q
      (opts.threshold.getD DEFAULT_THRESHOLD)
      (opts.limit.getD DEFAULT_LIMIT)).2 ++
      (tryKeywordSearch st q (opts.limit.getD DEFAULT_LIMIT)).2,
      ∀ t0 l0, op ≠ .vectorQ t0 l0 := by
    intro op hop t0 l0
    rcases List.mem_append.mp hop with hop | hop
    · rw [htr1] at hop
      simp only [List.mem_singleton] at hop
      rw [hop]
      simp
    · rcases tryKeywordSearch_trace st q (opts.limit.getD DEFAULT_LIMIT)
        with htk | htk
      · rw [htk] at hop
        simp at hop
      · rw [htk] at hop
        simp only [List.mem_singleton] at hop
        rw [hop]
        simp
  rcases hH : hybridVectorSearch st q (opts.threshold.getD DEFAULT_THRESHOLD)
    (opts.limit.getD DEFAULT_LIMIT) with ⟨x, tr1⟩
  rw [hH] at hhy
  simp only at hhy
  subst hhy
  rw [hH] at htr1 hnotvec
  simp only at htr1 hnotvec
  have hkseq := @keywordStep_eq_try st q
    (opts.limit.getD DEFAULT_LIMIT) hgate
  rcases hK : tryKeywordSearch st q (opts.limit.getD DEFAULT_LIMIT)
    with ⟨ko, tr2⟩
  rw [hK] at hkseq hnotvec
  simp only at hnotvec
  cases ko with
  | some krows =>
    have hSR : searchRows st q (opts.threshold.getD DEFAULT_THRESHOLD)
        (opts.limit.getD DEFAULT_LIMIT) = (.ok krows, tr1 ++ tr2) := by
      rw [searchRows, hH]
      simp [hkseq]
    obtain ⟨hkr, _, _, _⟩ := tryKeywordSearch_some hK
    refine ⟨[], ?_, hnotvec, ?_⟩
    · rw [vectorSearch_trace_eq, hSR]
      simp
    · intro krows2 hk2
      simp only [Option.some.injEq] at hk2
      subst hk2
      refine ⟨rfl, ?_, hkr, ?_, ?_⟩
      · simp only [vectorSearch]
        rw [hSR]
      · rw [keywordSearchTerms]
        exact List.length_take_le _ _
      · intro r hr
        rw [hkr] at hr
        exact keywordSqlRows_sim hr
  | none =>
    rcases hV : executeVectorSearch st (opts.threshold.getD DEFAULT_THRESHOLD)
      (opts.limit.getD DEFAULT_LIMIT) with ⟨xv, tr3⟩
    cases xv with
    | error e =>
      refine ⟨tr3, ?_, hnotvec, ?_⟩
      · rw [vectorSearch_trace_eq, searchRows, hH]
        simp [hkseq, hV]
      · intro krows2 hk2
        simp at hk2
    | ok vrows =>
      cases hvE : vrows.isEmpty with
      | true =>
        rcases hF : trySearchWithFallbackThresholds st
          (opts.threshold.getD DEFAULT_THRESHOLD)
          (opts.limit.getD DEFAULT_LIMIT) with ⟨xf, tr4⟩
        refine ⟨tr3 ++ tr4, ?_, hnotvec, ?_⟩
        · rw [vectorSearch_trace_eq, searchRows, hH]
          cases xf <;> simp [hkseq, hV, hvE, hF]
        · intro krows2 hk2
          simp at hk2
      | false =>
        refine ⟨tr3, ?_, hnotvec, ?_⟩
        · rw [vectorSearch_trace_eq, searchRows, hH]
          simp [hkseq, hV, hvE]
        · intro krows2 hk2
          simp at hk2

/-- C6, witness: a query whose first ten analyzer keywords are two-letter
tokens (so the hybrid terms miss "julio"), against a store whose only
document mentions "julio" in its content: the hybrid pass is empty, the
keyword query runs next and terminates the cascade with the 0.5-similarity
hit, and no vector query is ever issued before it. -/
theorem keyword_priority_before_vector_witness :
    ∃ rest,
      (vectorSearch ⟨[⟨1, "info".data, "julio here".data, 3/2⟩], false,
        false, fun _ => false⟩
        "ab cd ef gh ij kl mn op qr st julio".data ⟨none, none⟩).2 =
        (hybridVectorSearch ⟨[⟨1, "info".data, "julio here".data, 3/2⟩],
          false, false, fun _ => false⟩
          "ab cd ef gh ij kl mn op qr st julio".data
          (((⟨none, none⟩ : QueryOptions)).threshold.getD DEFAULT_THRESHOLD)
          (((⟨none, none⟩ : QueryOptions)).limit.getD DEFAULT_LIMIT)).2 ++
        (tryKeywordSearch ⟨[⟨1, "info".data, "julio here".data, 3/2⟩],
          false, false, fun _ => false⟩
          "ab cd ef gh ij kl mn op qr st julio".data
          (((⟨none, none⟩ : QueryOptions)).limit.getD DEFAULT_LIMIT)).2
          ++ rest ∧
      (∀ op ∈ (hybridVectorSearch ⟨[⟨1, "info".data, "julio here".data,
          3/2⟩], false, false, fun _ => false⟩
          "ab cd ef gh ij kl mn op qr st julio".data
          (((⟨none, none⟩ : QueryOptions)).threshold.getD DEFAULT_THRESHOLD)
          (((⟨none, none⟩ : QueryOptions)).limit.getD DEFAULT_LIMIT)).2 ++
          (tryKeywordSearch ⟨[⟨1, "info".data, "julio here".data, 3/2⟩],
          false, false, fun _ => false⟩
          "ab cd ef gh ij kl mn op qr st julio".data
          (((⟨none, none⟩ : QueryOptions)).limit.getD DEFAULT_LIMIT)).2,
        ∀ t0 l0, op ≠ .vectorQ t0 l0) ∧
      (∀ krows,
        (tryKeywordSearch ⟨[⟨1, "info".data, "julio here".data, 3/2⟩],
          false, false, fun _ => false⟩
          "ab cd ef gh ij kl mn op qr st julio".data
          (((⟨none, none⟩ : QueryOptions)).limit.getD DEFAULT_LIMIT)).1
            = some krows →
        rest = [] ∧
        (vectorSearch ⟨[⟨1, "info".data, "julio here".data, 3/2⟩], false,
          false, fun _ => false⟩
          "ab cd ef gh ij kl mn op qr st julio".data ⟨none, none⟩).1
            = .ok (mapRowsToDocuments krows) ∧
        krows = keywordSqlRows [⟨1, "info".data, "julio here".data, 3/2⟩]
          (keywordSearchTerms "ab cd ef gh ij kl mn op qr st julio".data)
          (((⟨none, none⟩ : QueryOptions)).limit.getD DEFAULT_LIMIT) ∧
        (keywordSearchTerms
          "ab cd ef gh ij kl mn op qr st julio".data).length ≤ 5 ∧
        (∀ r ∈ krows, r.similarity = 1/2)) :=
  keyword_priority_before_vector
    ⟨[⟨1, "info".data, "julio here".data, 3/2⟩], false, false,
      fun _ => false⟩
    "ab cd ef gh ij kl mn op qr st julio".data ⟨none, none⟩
    (by decide) (by decide)

/-! Machinery for the analyzer idempotence claim: on input without digits
the five identifier patterns cannot match, and on lowercase alphabetic
tokens the keyword loop is the identity. -/

/-- The 26 lowercase ASCII letters, used to state the restricted
idempotence result. -/
def lowercaseChars : Str := "abcdefghijklmnopqrstuvwxyz".data

theorem flatMap_nil_of {α β : Type} {l : List α} {f : α → List β}
    (h : ∀ x ∈ l, f x = []) : l.flatMap f = [] := by
  induction l with
  | nil => rfl
  | cons x xs ih =>
    rw [List.flatMap_cons, h x (by simp), List.nil_append]
    exact ih (fun y hy => h y (by simp [hy]))

theorem consumeK_suffix (prev : Option Char) (s : List Char) (k : Nat) :
    (consumeK prev s k).2 <:+ s := by
  rw [consumeK]
  split
  · exact List.suffix_refl s
  · exact List.drop_suffix k s

theorem mlist_suffix : ∀ (re : RE) (prev : Option Char) (s : List Char),
    ∀ pr ∈ mlist re prev s, pr.2 <:+ s := by
  intro re
  induction re with
  | cls p =>
    intro prev s pr hpr
    cases s with
    | nil => simp [mlist] at hpr
    | cons c rest =>
      rw [mlist] at hpr
      split at hpr
      · simp only [List.mem_singleton] at hpr
        rw [hpr]
        exact List.suffix_cons c rest
      · simp at hpr
  | opt p =>
    intro prev s pr hpr
    cases s with
    | nil =>
      rw [mlist] at hpr
      simp only [List.mem_singleton] at hpr
      rw [hpr]
    | cons c rest =>
      rw [mlist] at hpr
      split at hpr
      · rcases List.mem_cons.mp hpr with h | h
        · rw [h]
          exact List.suffix_cons c rest
        · simp only [List.mem_singleton] at h
          rw [h]
      · simp only [List.mem_singleton] at hpr
        rw [hpr]
  | plus p =>
    intro prev s pr hpr
    simp only [mlist, greedyAlts, List.mem_map] at hpr
    obtain ⟨k, _, hk⟩ := hpr
    rw [← hk]
    exact consumeK_suffix prev s k
  | star p =>
    intro prev s pr hpr
    simp only [mlist, greedyAlts, List.mem_map] at hpr
    obtain ⟨k, _, hk⟩ := hpr
    rw [← hk]
    exact consumeK_suffix prev s k
  | rep2 p =>
    intro prev s pr hpr
    simp only [mlist, greedyAlts, List.mem_map] at hpr
    obtain ⟨k, _, hk⟩ := hpr
    rw [← hk]
    exact consumeK_suffix prev s k
  | bnd =>
    intro prev s pr hpr
    rw [mlist] at hpr
    split at hpr
    · simp only [List.mem_singleton] at hpr
      rw [hpr]
    · simp at hpr
  | seq a b iha ihb =>
    intro prev s pr hpr
    simp only [mlist, List.mem_flatMap] at hpr
    obtain ⟨mid, hmid, hb⟩ := hpr
    exact List.IsSuffix.trans (ihb mid.1 mid.2 pr hb) (iha prev s mid hmid)

theorem mlist_plus_digit_nil {prev : Option Char} {s : List Char}
    (h : ∀ c ∈ s, isDigitC c = false) :
    mlist (.plus isDigitC) prev s = [] := by
  have htw : s.takeWhile isDigitC = [] := by
    cases s with
    | nil => rfl
    | cons c rest =>
      rw [List.takeWhile_cons, h c (by simp)]
      rfl
  simp [mlist, greedyAlts, htw]

/-- A pattern that, along every path, must consume at least one digit. -/
inductive NeedsDigit : RE → Prop
  | plus : NeedsDigit (.plus isDigitC)
  | seqL {a b : RE} : NeedsDigit a → NeedsDigit (.seq a b)
  | seqR {a b : RE} : NeedsDigit b → NeedsDigit (.seq a b)

theorem mlist_needsDigit_nil {re : RE} (hre : NeedsDigit re) :
    ∀ (prev : Option Char) (s : List Char),
      (∀ c ∈ s, isDigitC c = false) → mlist re prev s = [] := by
  induction hre with
  | plus =>
    intro prev s h
    exact mlist_plus_digit_nil h
  | seqL ha iha =>
    intro prev s h
    simp only [mlist]
    rw [iha prev s h]
    rfl
  | seqR hb ihb =>
    intro prev s h
    simp only [mlist]
    apply flatMap_nil_of
    intro pr hpr
    apply ihb
    intro c hc
    exact h c ((mlist_suffix _ prev s pr hpr).subset hc)

theorem scanAux_nil {re : RE}
    (hre : ∀ (prev : Option Char) (s : List Char),
      (∀ c ∈ s, isDigitC c = false) → mlist re prev s = []) :
    ∀ (fuel : Nat) (prev : Option Char) (s : List Char),
      (∀ c ∈ s, isDigitC c = false) → scanAux re fuel prev s = [] := by
  intro fuel
  induction fuel with
  | zero => intro prev s _; rfl
  | succ fuel ih =>
    intro prev s h
    cases s with
    | nil => rfl
    | cons c cs =>
      rw [scanAux, hre prev (c :: cs) h]
      exact ih (some c) cs (fun x hx => h x (by simp [hx]))

theorem reMatches_nil {re : RE} (hre : NeedsDigit re) {q : Str}
    (h : ∀ c ∈ q, isDigitC c = false) : reMatches re q = [] :=
  scanAux_nil (mlist_needsDigit_nil hre) _ none q h

theorem pat1_needsDigit : NeedsDigit pat1 := .seqR (.seqL .plus)

theorem pat2_needsDigit : NeedsDigit pat2 :=
  .seqR (.seqR (.seqR (.seqL .plus)))

theorem pat3_needsDigit : NeedsDigit pat3 := .seqR (.seqL .plus)

theorem pat4_needsDigit : NeedsDigit pat4 := .seqR (.seqR (.seqL .plus))

theorem pat5_needsDigit : NeedsDigit pat5 := .seqR (.seqL .plus)

theorem extract_identifiers_nil {q : Str}
    (h : ∀ c ∈ q, isDigitC c = false) :
    (extractQueryIdentifiers q).identifiers = [] := by
  rw [extractQueryIdentifiers]
  simp only [reMatches_nil pat1_needsDigit h, reMatches_nil pat2_needsDigit h,
    reMatches_nil pat3_needsDigit h, reMatches_nil pat4_needsDigit h,
    reMatches_nil pat5_needsDigit h]
  rfl

theorem lowercase_char_facts : ∀ c ∈ lowercaseChars,
    c.toLower = c ∧ isWordChar c = true ∧ isDigitC c = false ∧
      isAlphaC c = true ∧ isJsSpace c = false := by
  decide

theorem mem_of_mem_takeWhileP {α : Type} {p : α → Bool} {l : List α}
    {c : α} (h : c ∈ l.takeWhile p) : c ∈ l ∧ p c = true := by
  induction l with
  | nil => simp at h
  | cons a as ih =>
    rw [List.takeWhile_cons] at h
    split at h
    · next hp =>
      rcases List.mem_cons.mp h with h | h
      · rw [h]
        exact ⟨by simp, hp⟩
      · obtain ⟨h1, h2⟩ := ih h
        exact ⟨by simp [h1], h2⟩
    · simp at h

theorem mem_of_mem_dropWhileP {α : Type} {p : α → Bool} {l : List α}
    {c : α} (h : c ∈ l.dropWhile p) : c ∈ l := by
  induction l with
  | nil => simp at h
  | cons a as ih =>
    rw [List.dropWhile_cons] at h
    split at h
    · exact List.mem_cons_of_mem a (ih h)
    · exact h

theorem takeWhile_all {α : Type} {p : α → Bool} {w : List α}
    (hw : ∀ a ∈ w, p a = true) : w.takeWhile p = w := by
  induction w with
  | nil => rfl
  | cons a as ih =>
    rw [List.takeWhile_cons, hw a (by simp)]
    simp only [if_true]
    rw [ih (fun x hx => hw x (by simp [hx]))]

theorem takeWhile_append_stop {α : Type} {p : α → Bool} {w t : List α}
    {c : α} (hw : ∀ a ∈ w, p a = true) (hc : p c = false) :
    (w ++ c :: t).takeWhile p = w := by
  induction w with
  | nil =>
    rw [List.nil_append, List.takeWhile_cons, hc]
    rfl
  | cons a as ih =>
    rw [List.cons_append, List.takeWhile_cons, hw a (by simp)]
    simp only [if_true]
    rw [ih (fun x hx => hw x (by simp [hx]))]

theorem splitWsGo_chars : ∀ (fuel : Nat) (s : Str), ∀ w ∈ splitWsGo fuel s,
    ∀ c ∈ w, c ∈ s ∧ isJsSpace c = false := by
  intro fuel
  induction fuel with
  | zero =>
    intro s w hw
    simp [splitWsGo] at hw
  | succ fuel ih =>
    intro s w hw c hc
    rw [splitWsGo] at hw
    have htok : ∀ c2 ∈ s.takeWhile (fun x => !isJsSpace x),
        c2 ∈ s ∧ isJsSpace c2 = false := by
      intro c2 hc2
      obtain ⟨h1, h2⟩ := mem_of_mem_takeWhileP hc2
      exact ⟨h1, by simpa using h2⟩
    split at hw
    · simp only [List.mem_singleton] at hw
      rw [hw] at hc
      exact htok c hc
    · rcases List.mem_cons.mp hw with hw | hw
      · rw [hw] at hc
        exact htok c hc
      · obtain ⟨h1, h2⟩ := ih _ w hw c hc
        refine ⟨?_, h2⟩
        exact List.mem_of_mem_drop (mem_of_mem_dropWhileP h1)

theorem contains_true_of_mem {α : Type} [BEq α] [LawfulBEq α]
    {l : List α} {a : α} (h : a ∈ l) : l.contains a = true :=
  List.elem_iff.mpr h

theorem mem_of_contains_true {α : Type} [BEq α] [LawfulBEq α]
    {l : List α} {a : α} (h : l.contains a = true) : a ∈ l :=
  List.elem_iff.mp h

theorem kwGo_cons_lower {w : Str} {ws : List Str} {seen : List Str}
    (hw : ∀ c ∈ w, c ∈ lowercaseChars) :
    kwGo (w :: ws) seen =
      if (decide (2 ≤ w.length) && !seen.contains w) = true
      then w :: kwGo ws (w :: seen)
      else kwGo ws seen := by
  have hcl : w.filter isWordChar = w :=
    List.filter_eq_self.mpr
      (fun c hc => (lowercase_char_facts c (hw c hc)).2.1)
  have hlo : toLowerStr w = w := by
    rw [toLowerStr,
      List.map_congr_left
        (fun c hc => (lowercase_char_facts c (hw c hc)).1)]
    exact List.map_id w
  have hnum : isPureNumeric w = false := by
    cases hwc : w with
    | nil => rfl
    | cons c cs =>
      have hd : isDigitC c = false :=
        (lowercase_char_facts c (hw c (by rw [hwc]; simp))).2.2.1
      simp [isPureNumeric, hd]
  rw [kwGo, hcl, hlo, hnum]
  by_cases hlen : 2 ≤ w.length
  · have hany : w.any isAlphaC = true := by
      cases hwc : w with
      | nil => rw [hwc] at hlen; simp at hlen
      | cons c cs =>
        have ha : isAlphaC c = true :=
          (lowercase_char_facts c (hw c (by rw [hwc]; simp))).2.2.2.1
        simp [ha]
    simp [hlen, hany]
  · simp [hlen]

theorem kwGo_lower_spec : ∀ (ws : List Str) (seen : List Str),
    (∀ w ∈ ws, ∀ c ∈ w, c ∈ lowercaseChars) →
    (∀ w ∈ kwGo ws seen, (∀ c ∈ w, c ∈ lowercaseChars) ∧ 2 ≤ w.length ∧
      seen.contains w = false) ∧ (kwGo ws seen).Nodup := by
  intro ws
  induction ws with
  | nil =>
    intro seen _
    constructor
    · intro w hw
      simp [kwGo] at hw
    · rw [kwGo]
      exact List.nodup_nil
  | cons w ws ih =>
    intro seen hws
    have hw : ∀ c ∈ w, c ∈ lowercaseChars := hws w (by simp)
    have hws2 : ∀ x ∈ ws, ∀ c ∈ x, c ∈ lowercaseChars :=
      fun x hx => hws x (by simp [hx])
    rw [kwGo_cons_lower hw]
    split
    · next hcond =>
      rw [Bool.and_eq_true, decide_eq_true_eq, Bool.not_eq_true'] at hcond
      obtain ⟨hih1, hih2⟩ := ih (w :: seen) hws2
      have hnotmem : w ∉ kwGo ws (w :: seen) := by
        intro hmem
        have := (hih1 w hmem).2.2
        have hcw : (w :: seen).contains w = true := by
          rw [List.elem_iff]
          simp
        rw [hcw] at this
        exact absurd this (by simp)
      constructor
      · intro x hx
        rcases List.mem_cons.mp hx with hx | hx
        · rw [hx]
          exact ⟨hw, hcond.1, hcond.2⟩
        · obtain ⟨hx1, hx2, hx3⟩ := hih1 x hx
          refine ⟨hx1, hx2, ?_⟩
          by_contra hcon
          rw [Bool.not_eq_false] at hcon
          have : (w :: seen).contains x = true := by
            rw [List.elem_iff] at hcon ⊢
            simp [hcon]
          rw [this] at hx3
          exact absurd hx3 (by simp)
      · exact List.nodup_cons.mpr ⟨hnotmem, hih2⟩
    · exact ih seen hws2

theorem kwGo_eq_self : ∀ (l : List Str) (seen : List Str),
    (∀ w ∈ l, (∀ c ∈ w, c ∈ lowercaseChars) ∧ 2 ≤ w.length ∧
      seen.contains w = false) → l.Nodup →
    kwGo l seen = l := by
  intro l
  induction l with
  | nil =>
    intro seen _ _
    rfl
  | cons w l ih =>
    intro seen hval hnd
    obtain ⟨hw, hlen, hseen⟩ := hval w (by simp)
    rw [kwGo_cons_lower hw]
    have hcond : (decide (2 ≤ w.length) && !seen.contains w) = true := by
      rw [hseen]
      simp [hlen]
    rw [if_pos hcond]
    congr 1
    apply ih
    · intro x hx
      obtain ⟨hx1, hx2, hx3⟩ := hval x (by simp [hx])
      refine ⟨hx1, hx2, ?_⟩
      have hxw : x ≠ w := by
        intro hc
        rw [hc] at hx
        exact (List.nodup_cons.mp hnd).1 hx
      cases hcontains : (w :: seen).contains x with
      | false => rfl
      | true =>
        exfalso
        rcases List.mem_cons.mp (mem_of_contains_true hcontains) with hc | hc
        · exact hxw hc
        · have := contains_true_of_mem hc
          rw [hx3] at this
          exact absurd this (by simp)
    · exact (List.nodup_cons.mp hnd).2

theorem dropWhile_head_false {z : Str} {c : Char} {t : Str}
    (hz : z = c :: t) (hc : isJsSpace c = false) :
    z.dropWhile isJsSpace = z := by
  rw [hz, List.dropWhile_cons, hc]
  rfl

theorem joinSp_cons_cons (w x : Str) (l : List Str) :
    joinSp (w :: x :: l) = w ++ ' ' :: joinSp (x :: l) := rfl

theorem splitWsGo_joinSp : ∀ (l : List Str) (fuel : Nat),
    (joinSp l).length < fuel → l ≠ [] →
    (∀ w ∈ l, w ≠ [] ∧ ∀ c ∈ w, isJsSpace c = false) →
    splitWsGo fuel (joinSp l) = l := by
  intro l
  induction l with
  | nil =>
    intro fuel _ hne _
    exact absurd rfl hne
  | cons w l ih =>
    intro fuel hfuel _ hval
    obtain ⟨hwne, hwns⟩ := hval w (by simp)
    cases fuel with
    | zero => simp at hfuel
    | succ fuel =>
      cases l with
      | nil =>
        rw [splitWsGo]
        have htw : (joinSp [w]).takeWhile (fun c => !isJsSpace c) = w := by
          show w.takeWhile (fun c => !isJsSpace c) = w
          exact takeWhile_all (fun a ha => by simp [hwns a ha])
        rw [htw]
        show (match w.drop w.length with
          | [] => [w]
          | _ => w :: splitWsGo fuel ((w.drop w.length).dropWhile isJsSpace))
          = [w]
        rw [List.drop_length]
      | cons x l2 =>
        obtain ⟨hxne, hxns⟩ := hval x (by simp)
        rw [splitWsGo, joinSp_cons_cons]
        have htw : (w ++ ' ' :: joinSp (x :: l2)).takeWhile
            (fun c => !isJsSpace c) = w :=
          takeWhile_append_stop (fun a ha => by simp [hwns a ha]) (by decide)
        rw [htw]
        have hdr : (w ++ ' ' :: joinSp (x :: l2)).drop w.length =
            ' ' :: joinSp (x :: l2) := List.drop_left w _
        rw [hdr]
        have hjne : ∃ c t, joinSp (x :: l2) = c :: t ∧ isJsSpace c = false := by
          obtain ⟨c, cs, hx⟩ : ∃ c cs, x = c :: cs := by
            cases hx : x with
            | nil => exact absurd hx hxne
            | cons c cs => exact ⟨c, cs, rfl⟩
          subst hx
          cases l2 with
          | nil => exact ⟨c, cs, rfl, hxns c (by simp)⟩
          | cons y l3 =>
            exact ⟨c, cs ++ ' ' :: joinSp (y :: l3), rfl,
              hxns c (by simp)⟩
        obtain ⟨c, t, hj, hc⟩ := hjne
        have hdw : (' ' :: joinSp (x :: l2)).dropWhile isJsSpace =
            joinSp (x :: l2) := by
          rw [List.dropWhile_cons]
          simp only [show isJsSpace ' ' = true from rfl, if_true]
          exact dropWhile_head_false hj hc
        show w :: splitWsGo fuel ((' ' :: joinSp (x :: l2)).dropWhile
          isJsSpace) = w :: x :: l2
        rw [hdw]
        congr 1
        apply ih
        · have hlen : (joinSp (w :: x :: l2)).length =
              w.length + 1 + (joinSp (x :: l2)).length := by
            rw [joinSp_cons_cons]
            simp [List.length_append]
            omega
          omega
        · simp
        · intro y hy
          exact hval y (by simp [hy])

theorem extract_noDigit_eq {q : Str} (h : ∀ c ∈ q, isDigitC c = false) :
    extractQueryIdentifiers q = ⟨[], (kwGo (splitWs q) []).take 15⟩ := by
  rw [extractQueryIdentifiers]
  simp only [reMatches_nil pat1_needsDigit h, reMatches_nil pat2_needsDigit h,
    reMatches_nil pat3_needsDigit h, reMatches_nil pat4_needsDigit h,
    reMatches_nil pat5_needsDigit h]
  rfl

theorem mem_joinSp {l : List Str} {c : Char} (h : c ∈ joinSp l) :
    c = ' ' ∨ ∃ w ∈ l, c ∈ w := by
  induction l with
  | nil => simp [joinSp] at h
  | cons w l ih =>
    cases l with
    | nil =>
      right
      exact ⟨w, by simp, h⟩
    | cons x l2 =>
      rw [joinSp_cons_cons] at h
      rcases List.mem_append.mp h with h | h
      · right
        exact ⟨w, by simp, h⟩
      · rcases List.mem_cons.mp h with h | h
        · left
          exact h
        · rcases ih h with h | ⟨w2, hw2, hc2⟩
          · left
            exact h
          · right
            exact ⟨w2, by simp [hw2], hc2⟩

/-- C7, amended.  On queries made of spaces and lowercase letters only (so
the analyzer finds no identifier-shaped tokens and no capitalized
keywords), re-running the analyzer on its own canonicalized output yields
exactly the same identifier set (empty) and the same keyword list.  On
general queries idempotence fails, because the second run deduplicates the
capitalized keyword variants away and can re-parse identifier fragments. -/
theorem analyzer_idempotent_on_lowercase (q : Str)
    (hq : ∀ c ∈ q, c = ' ' ∨ c ∈ lowercaseChars) :
    extractQueryIdentifiers (analyzerOutput q) =
      extractQueryIdentifiers q := by
  have hdq : ∀ c ∈ q, isDigitC c = false := by
    intro c hc
    rcases hq c hc with h | h
    · rw [h]
      rfl
    · exact (lowercase_char_facts c h).2.2.1
  have htok : ∀ w ∈ splitWs q, ∀ c ∈ w, c ∈ lowercaseChars := by
    intro w hw c hc
    obtain ⟨hcm, hcs⟩ := splitWsGo_chars _ q w hw c hc
    rcases hq c hcm with h | h
    · rw [h] at hcs
      exact absurd hcs (by decide)
    · exact h
  obtain ⟨hK1, hK2⟩ := kwGo_lower_spec (splitWs q) [] htok
  have hq_eq := extract_noDigit_eq hdq
  have hout : analyzerOutput q = joinSp ((kwGo (splitWs q) []).take 15) := by
    rw [analyzerOutput, hq_eq]
    rfl
  have hK1mem : ∀ w ∈ (kwGo (splitWs q) []).take 15,
      (∀ c ∈ w, c ∈ lowercaseChars) ∧ 2 ≤ w.length ∧
        ([] : List Str).contains w = false := by
    intro w hw
    exact hK1 w (List.mem_of_mem_take hw)
  have hK1nd : ((kwGo (splitWs q) []).take 15).Nodup :=
    List.Nodup.sublist (List.take_sublist _ _) hK2
  have hdo : ∀ c ∈ analyzerOutput q, isDigitC c = false := by
    rw [hout]
    intro c hc
    rcases mem_joinSp hc with h | ⟨w, hw, hcw⟩
    · rw [h]
      rfl
    · exact (lowercase_char_facts c ((hK1mem w hw).1 c hcw)).2.2.1
  rw [extract_noDigit_eq hdo, hq_eq]
  congr 1
  rcases eq_or_ne ((kwGo (splitWs q) []).take 15) [] with hK1e | hne
  · rw [hout, hK1e]
    decide
  · have hval : ∀ w ∈ (kwGo (splitWs q) []).take 15,
        w ≠ [] ∧ ∀ c ∈ w, isJsSpace c = false := by
      intro w hw
      obtain ⟨hlc, hlen, _⟩ := hK1mem w hw
      constructor
      · intro hc
        rw [hc] at hlen
        simp at hlen
      · intro c hc
        exact (lowercase_char_facts c (hlc c hc)).2.2.2.2
    have hsplit : splitWs (analyzerOutput q) =
        (kwGo (splitWs q) []).take 15 := by
      rw [hout, splitWs]
      exact splitWsGo_joinSp _ _ (by omega) hne hval
    rw [hsplit, kwGo_eq_self _ [] (fun w hw => hK1mem w hw) hK1nd]
    exact List.take_of_length_le (List.length_take_le _ _)

/-- C7, witness: the lowercase two-word query "wind mill", on which
re-running the analyzer on its own output is the identity. -/
theorem analyzer_idempotent_on_lowercase_witness :
    (∀ c ∈ "wind mill".data, c = ' ' ∨ c ∈ lowercaseChars) ∧
    extractQueryIdentifiers (analyzerOutput "wind mill".data) =
      extractQueryIdentifiers "wind mill".data :=
  ⟨by decide, analyzer_idempotent_on_lowercase _ (by decide)⟩

/-- C10, witness: the query "1 2" (only short purely-numeric tokens) has no
identifiers and no keywords, and its hybrid pass equals the pure-vector
pass on a concrete store. -/
theorem hybrid_no_terms_is_pure_vector_witness :
    extractQueryIdentifiers "1 2".data = ⟨[], []⟩ ∧
    hybridVectorSearch ⟨[⟨1, "doc".data, "body".data, 1/2⟩], false, false,
        fun _ => false⟩ "1 2".data (3/10) 5
      = executeVectorSearch ⟨[⟨1, "doc".data, "body".data, 1/2⟩], false,
        false, fun _ => false⟩ (3/10) 5 :=
  ⟨by decide, hybrid_no_terms_is_pure_vector _ _ _ _ (by decide)⟩

end RagVec
